import Mathlib

/-!
# Klondike solitaire rules engine: a shallow embedding

This development embeds the solitaire rules engine (`Game` object of the
repository's game-logic file) in Lean 4 and proves properties of it.

Conventions of the embedding:
* JS numbers are modelled exactly: integer state as `Nat`/`Int`; the
  random generator's arithmetic, which JS performs in IEEE-754 binary64,
  is modelled by exact rationals filtered through `fl64`, the binary64
  round-to-nearest-ties-to-even rounding, applied at each arithmetic step
  (a deterministic function, hence an exact embedding of the float
  computation).
* Piles are Lean lists; the top of a pile is the LAST element, as in the
  source (`push`/`pop` act on the end of a JS array).
* A JS operation that would throw a `TypeError` (indexing a pile group with
  an out-of-range index and then calling a method on `undefined`) is
  modelled by an `Option` result of `none`.
* The string-tagged location descriptors (`{location, pileIndex, index}`)
  are kept as a structure with a `String` tag, mirroring the source's
  stringly-typed dispatch, including its behaviour on unrecognized tags.
-/

namespace Solitaire

/-- The four suits, in the order of the source's `SUITS` array. -/

inductive Suit where
  | hearts | diamonds | clubs | spades
deriving DecidableEq, Repr

/-- `SUITS: ['hearts', 'diamonds', 'clubs', 'spades']`. -/

def SUITS : List Suit := [.hearts, .diamonds, .clubs, .spades]

/-- `RED_SUITS: ['hearts', 'diamonds']`. -/

def RED_SUITS : List Suit := [.hearts, .diamonds]

/-- A card: immutable suit and rank plus the mutable `faceUp` flag.
Rank is an `Int` (a JS number holding 1..13 for real cards); keeping `Int`
makes arithmetic such as `topCard.rank - 1` match JS arithmetic. -/

structure Card where
  suit : Suit
  rank : Int
  faceUp : Bool
deriving DecidableEq, Repr

/-- The derived unique card id. The source uses the string
`suit-rank`; for the suit/rank values in play that string is in bijection
with the pair `(suit, rank)`, which we use directly. -/

def Card.id (c : Card) : Suit × Int := (c.suit, c.rank)

/-- `createCard(suit, rank)`: fresh cards are face-down. -/

def createCard (suit : Suit) (rank : Int) : Card :=
  { suit := suit, rank := rank, faceUp := false }

/-- `createDeck()`: the 52 cards in suit-major, rank-ascending order. -/

def createDeck : List Card :=
  SUITS.flatMap fun suit => (List.range 13).map fun r => createCard suit (r + 1)

/-- The fields captured by `saveState` (the JSON snapshot pushed on the
undo history): exactly stock, waste, foundations, tableau, moves, score. -/

structure Snap where
  stock : List Card
  waste : List Card
  foundations : List (List Card)
  tableau : List (List Card)
  moves : Nat
  score : Int
deriving DecidableEq, Repr

/-- The full game state created by `newGame()`. -/

structure GameState where
  stock : List Card
  waste : List Card
  foundations : List (List Card)
  tableau : List (List Card)
  history : List Snap
  moves : Nat
  score : Int
  startTime : Nat
  seed : Nat
deriving DecidableEq, Repr

/-- The engine settings: `drawCount` and the scoring mode string
(`'standard'`, `'vegas'`, or `'none'`). -/

structure Settings where
  drawCount : Nat
  scoring : String
deriving DecidableEq, Repr

/-- A location descriptor as passed to `moveCards` / returned by
`findCard`: a string tag plus pile/card indices (fields the source leaves
absent are defaulted to 0; they are only read for the tags that set them). -/

structure LocDesc where
  location : String
  pileIndex : Nat := 0
  index : Nat := 0
deriving DecidableEq, Repr

/-! ## Seeded random number generator (LCG)

`seededRandom.next()` executes
`this.seed = (this.seed * 1103515245 + 12345) & 0x7fffffff` and returns
`this.seed / 0x7fffffff`.  JS evaluates this arithmetic in IEEE-754
binary64: the product `seed * 1103515245` is rounded to 53 significant
bits before the addition, the sum is rounded again, and `&` applies
`ToInt32` to the resulting integer-valued double — for a non-negative one,
keeping the low 31 bits is reduction mod `2^31`.  We embed the float
computation exactly: every binary64 value arising here is a rational, and
the rounding function `fl64` below is the deterministic
round-to-nearest-ties-to-even at 53 significant bits, applied at each
arithmetic step exactly as JS's evaluation rules prescribe. -/

/-- Fuel-based binary logarithm (structural recursion, so the kernel can
evaluate it): for `1 ≤ n ≤ fuel` it satisfies
`2 ^ log2fuel fuel n ≤ n < 2 ^ (log2fuel fuel n + 1)`. -/

def log2fuel : Nat → Nat → Nat
  | 0, _ => 0
  | fuel + 1, n => if 2 ≤ n then log2fuel fuel (n / 2) + 1 else 0

/-- The binary logarithm of a positive natural. -/

def nlog2 (n : Nat) : Nat := log2fuel n n

/-- `ipow2 e` = `2 ^ e : ℚ` for an integer exponent, defined by cases on
the constructor so that the kernel can evaluate it. -/

def ipow2 : Int → ℚ
  | Int.ofNat k => ((2 ^ k : Nat) : ℚ)
  | Int.negSucc k => 1 / ((2 ^ (k + 1) : Nat) : ℚ)

/-- The binary exponent of a positive rational:
`ipow2 (qlog2 q) ≤ q < ipow2 (qlog2 q + 1)`. -/

def qlog2 (q : ℚ) : Int :=
  let e0 : Int := (nlog2 q.num.toNat : Int) - (nlog2 q.den : Int)
  if ipow2 e0 ≤ q then e0 else e0 - 1

/-- Round a rational to the nearest integer, ties to the even neighbour. -/

def rnd (m : ℚ) : Int :=
  if m - (Int.floor m : ℚ) < 1 / 2 then Int.floor m
  else if 1 / 2 < m - (Int.floor m : ℚ) then Int.floor m + 1
  else if Int.floor m % 2 = 0 then Int.floor m else Int.floor m + 1

/-- IEEE-754 binary64 rounding (round to nearest, ties to even) of a
non-negative rational: scale by the power of two that moves the value
into the significand window `[2^52, 2^53)`, round to an integer, scale
back.  (The generator's values stay far inside the finite normal range,
so overflow and subnormals cannot arise and need no treatment.) -/

def fl64 (q : ℚ) : ℚ :=
  if q = 0 then 0
  else ((rnd (q * ipow2 (52 - qlog2 q)) : Int) : ℚ) / ipow2 (52 - qlog2 q)

/-- The seed update performed by `next()`:
`(seed * 1103515245 + 12345) & 0x7fffffff`, with the multiplication and
the addition each evaluated in binary64 (results rounded by `fl64`) and
the mask modelled by `ToInt32` + low 31 bits of the non-negative
integer-valued double. -/

def lcgNext (seed : Nat) : Nat :=
  Nat.land (Int.floor (fl64 (fl64 ((seed : ℚ) * 1103515245) + 12345))).toNat 0x7fffffff

/-- `next()`: returns the updated seed together with the binary64
quotient `seed / 0x7fffffff` handed back to the caller. -/

def seededRandomNext (seed : Nat) : Nat × ℚ :=
  let s := lcgNext seed
  (s, fl64 ((s : ℚ) / (0x7fffffff : ℚ)))

/-- `nextInt(max)` = `Math.floor(next() * max)` (the product again
rounded to binary64), with the updated seed. -/

def seededRandomNextInt (seed : Nat) (max : Nat) : Nat × Int :=
  let r := seededRandomNext seed
  (r.1, Int.floor (fl64 (r.2 * (max : ℚ))))

/-! ## Shuffle and deal -/

/-- One array swap `[a[i], a[j]] = [a[j], a[i]]` with both indices in
range.  (If `j` were out of range — possible only when `next()` returns
exactly 1, i.e. the seed hits `0x7fffffff` — the JS swap would write
`undefined` into the array and the subsequent deal would throw; no state
results, so the embedding leaves the list unchanged in that case.) -/

def swapCards (l : List Card) (i j : Nat) : List Card :=
  match l.get? i, l.get? j with
  | some a, some b => (l.set i b).set j a
  | _, _ => l

/-- The Fisher-Yates loop of `shuffle`: `k+1` is the current index `i`
(the loop runs `i` from `length-1` down to `1`), `nextInt(i + 1)` picks
the swap partner. -/

def fisherYates : Nat → Nat → List Card → List Card
  | 0, _, arr => arr
  | k + 1, seed, arr =>
    let r := seededRandomNextInt seed (k + 2)
    fisherYates k r.1 (swapCards arr (k + 1) r.2.toNat)

/-- `shuffle(deck, seed)`: seed the generator, then Fisher-Yates. -/

def shuffle (deck : List Card) (seed : Nat) : List Card :=
  fisherYates (deck.length - 1) seed deck

/-- The dealing loop of `newGame`: column `col` receives the next
`col + 1` cards of the shuffled deck in order, only the last of them
face-up (`card.faceUp = (row === col)`); returns the seven tableau piles
and the remaining deck (which becomes the stock). -/

def dealLoop : Nat → Nat → List Card → List (List Card) × List Card
  | 0, _, deck => ([], deck)
  | n + 1, col, deck =>
    let pile := (deck.take (col + 1)).mapIdx fun r c => { c with faceUp := r == col }
    let rest := dealLoop n (col + 1) (deck.drop (col + 1))
    (pile :: rest.1, rest.2)

/-- `newGame()`, parameterized by the chosen seed (the source draws it
from `WINNABLE_SEEDS` via `Math.random`) and by the wall-clock instant
`now` (`Date.now()`). -/

def newGame (seed : Nat) (now : Nat) : GameState :=
  let deck := shuffle createDeck seed
  let dealt := dealLoop 7 0 deck
  { stock := dealt.2
    waste := []
    foundations := [[], [], [], []]
    tableau := dealt.1
    history := []
    moves := 0
    score := 0
    startTime := now
    seed := seed }

/-! ## History / undo -/

/-- The snapshot `saveState` serializes: the six listed fields. -/

def mkSnap (s : GameState) : Snap :=
  { stock := s.stock
    waste := s.waste
    foundations := s.foundations
    tableau := s.tableau
    moves := s.moves
    score := s.score }

/-- `history.push(...)` followed by the 50-entry cap
(`if (history.length > 50) history.shift()`). -/

def pushHistory (h : List Snap) (x : Snap) : List Snap :=
  let h' := h ++ [x]
  if 50 < h'.length then h'.drop 1 else h'

/-- `saveState()`. -/

def saveState (s : GameState) : GameState :=
  { s with history := pushHistory s.history (mkSnap s) }

/-- `undo()`: pop the most recent snapshot and restore its six fields;
`false` and no change when the history is empty. -/

def undo (s : GameState) : GameState × Bool :=
  match s.history.getLast? with
  | none => (s, false)
  | some p =>
    ({ s with
        stock := p.stock
        waste := p.waste
        foundations := p.foundations
        tableau := p.tableau
        moves := p.moves
        score := p.score
        history := s.history.dropLast }, true)

/-! ## Legality predicates -/

/-- `isRed(card)`. -/

def isRed (c : Card) : Bool := RED_SUITS.contains c.suit

/-- `areOppositeColors(card1, card2)`. -/

def areOppositeColors (c1 c2 : Card) : Bool := isRed c1 != isRed c2

/-- `getFoundationIndex(suit)` = `SUITS.indexOf(suit)`. -/

def getFoundationIndex (suit : Suit) : Nat := SUITS.indexOf suit

/-- `canPlaceOnFoundation(card, foundationIndex)`.  For an out-of-range
index the source reads `SUITS[i] === undefined`, so the suit test fails
and the function returns `false` before touching the pile; the `none`
branch mirrors that. -/

def canPlaceOnFoundation (s : GameState) (card : Card) (foundationIndex : Nat) : Bool :=
  match SUITS.get? foundationIndex with
  | none => false
  | some expectedSuit =>
    if card.suit ≠ expectedSuit then false
    else
      match (s.foundations.getD foundationIndex []).getLast? with
      | none => card.rank == 1
      | some topCard => card.rank == topCard.rank + 1

/-- `canPlaceOnTableau(card, tableauIndex)`.  (The source would throw on
an out-of-range index; the engine only ever calls it with 0..6, and the
theorems below quantify over `Fin 7`.) -/

def canPlaceOnTableau (s : GameState) (card : Card) (tableauIndex : Nat) : Bool :=
  let pile := s.tableau.getD tableauIndex []
  match pile.getLast? with
  | none => card.rank == 13
  | some topCard =>
    topCard.faceUp && areOppositeColors card topCard && (card.rank == topCard.rank - 1)

/-! ## Drawing from stock -/

/-- The draw loop of `drawFromStock`: pop a card off the end of the
stock, flip it face-up, push it onto the waste; `count` times. -/

def drawLoop : Nat → List Card → List Card → List Card × List Card
  | 0, stock, waste => (stock, waste)
  | n + 1, stock, waste =>
    match stock.getLast? with
    | none => (stock, waste)
    | some c => drawLoop n stock.dropLast (waste ++ [{ c with faceUp := true }])

/-- `drawFromStock()`: returns the new state and the boolean result. -/

def drawFromStock (cfg : Settings) (s : GameState) : GameState × Bool :=
  if s.stock.length = 0 then
    if s.waste.length = 0 then (s, false)
    else
      -- Reset: move waste back to stock, reversed and face-down.
      let s1 := saveState s
      let s2 := { s1 with
        stock := s1.waste.reverse.map fun c => { c with faceUp := false }
        waste := ([] : List Card) }
      let s3 :=
        if cfg.scoring == "vegas" then { s2 with score := max 0 (s2.score - 100) } else s2
      (s3, true)
  else
    let s1 := saveState s
    let count := min cfg.drawCount s1.stock.length
    let r := drawLoop count s1.stock s1.waste
    ({ s1 with stock := r.1, waste := r.2, moves := s1.moves + 1 }, true)

/-! ## Locating and moving cards -/

/-- The indexed pile scan shared by `findCard`'s foundation and tableau
loops: first pile containing the id, with the position inside it. -/

def findInPiles : Nat → List (List Card) → Suit × Int → Option (Nat × Nat)
  | _, [], _ => none
  | i, p :: rest, cid =>
    match p.findIdx? fun c => c.id == cid with
    | some j => some (i, j)
    | none => findInPiles (i + 1) rest cid

/-- `findCard(cardId)`: waste first, then foundations 0..3, then
tableau 0..6. -/

def findCard (s : GameState) (cid : Suit × Int) : Option LocDesc :=
  match s.waste.findIdx? fun c => c.id == cid with
  | some j => some { location := "waste", index := j }
  | none =>
    match findInPiles 0 s.foundations cid with
    | some (i, j) => some { location := "foundation", pileIndex := i, index := j }
    | none =>
      match findInPiles 0 s.tableau cid with
      | some (i, j) => some { location := "tableau", pileIndex := i, index := j }
      | none => none

/-- `getTopWasteCard()`. -/

def getTopWasteCard (s : GameState) : Option Card := s.waste.getLast?

/-- The "remove cards from source" half of `moveCards`: returns the state
with the cards removed, the removed cards, and the `sourceFlipped` flag.
`none` models the `TypeError` the source throws when a recognized tag
carries an out-of-range pile index (`undefined.pop()` / `.splice`).
Popping an EMPTY waste or foundation pile does not throw in JS — it
yields `[undefined]`, which the destination push then deposits; the
embedding carries the empty list of real cards instead.  An unrecognized
location tag removes nothing. -/

def removeFromSource (s : GameState) (src : LocDesc) :
    Option (GameState × List Card × Bool) :=
  if src.location == "waste" then
    some ({ s with waste := s.waste.dropLast }, s.waste.getLast?.toList, false)
  else if src.location == "foundation" then
    match s.foundations.get? src.pileIndex with
    | none => none
    | some pile =>
      some ({ s with foundations := s.foundations.set src.pileIndex pile.dropLast },
            pile.getLast?.toList, false)
  else if src.location == "tableau" then
    match s.tableau.get? src.pileIndex with
    | none => none
    | some pile =>
      -- splice(index): take this card and all cards after it
      let cards := pile.drop src.index
      let rest := pile.take src.index
      -- flip the new top card if needed
      match rest.getLast? with
      | some c =>
        if !c.faceUp then
          some ({ s with tableau :=
                    s.tableau.set src.pileIndex (rest.set (rest.length - 1) { c with faceUp := true }) },
                cards, true)
        else
          some ({ s with tableau := s.tableau.set src.pileIndex rest }, cards, false)
      | none => some ({ s with tableau := s.tableau.set src.pileIndex rest }, cards, false)
  else
    some (s, [], false)

/-- The "add cards to destination" half of `moveCards`, including the
scoring updates.  `none` again models the JS throw on a recognized tag
with an out-of-range pile index.  An unrecognized destination tag
receives nothing (in the source the removed cards are simply dropped). -/

def addToDest (cfg : Settings) (s : GameState) (cards : List Card)
    (sourceFlipped : Bool) (dst : LocDesc) : Option GameState :=
  if dst.location == "foundation" then
    match s.foundations.get? dst.pileIndex with
    | none => none
    | some pile =>
      let s1 := { s with foundations := s.foundations.set dst.pileIndex (pile ++ cards) }
      if cfg.scoring == "standard" then some { s1 with score := s1.score + 10 }
      else if cfg.scoring == "vegas" then some { s1 with score := s1.score + 5 }
      else some s1
  else if dst.location == "tableau" then
    match s.tableau.get? dst.pileIndex with
    | none => none
    | some pile =>
      let s1 := { s with tableau := s.tableau.set dst.pileIndex (pile ++ cards) }
      if sourceFlipped && (cfg.scoring == "standard") then some { s1 with score := s1.score + 5 }
      else some s1
  else
    some s

/-- `moveCards(fromLocation, toLocation)`: snapshot, remove, add,
increment the move counter, return `true` (`some`). -/

def moveCards (cfg : Settings) (s : GameState) (src dst : LocDesc) : Option GameState :=
  (removeFromSource (saveState s) src).bind fun r =>
    (addToDest cfg r.1 r.2.1 r.2.2 dst).map fun s2 => { s2 with moves := s2.moves + 1 }

/-- `tryAutoMove(cardId)`: the resulting state and the destination
descriptor (`none` = the source's `null`).  The inner `moveCards` calls
always carry in-range destinations when the pile groups have their normal
lengths; if one of them would throw, the embedding returns the state
unchanged with `none`. -/

def tryAutoMove (cfg : Settings) (s : GameState) (cid : Suit × Int) :
    GameState × Option LocDesc :=
  match findCard s cid with
  | none => (s, none)
  | some loc =>
    let cardO : Option Card :=
      if loc.location == "waste" then s.waste.get? loc.index
      else if loc.location == "tableau" then (s.tableau.getD loc.pileIndex []).get? loc.index
      else if loc.location == "foundation" then (s.foundations.getD loc.pileIndex []).get? loc.index
      else none
    match cardO with
    | none => (s, none)
    | some card =>
      if loc.location == "tableau" && !card.faceUp then (s, none)
      else
        -- First, try to move to foundation (only single cards)
        let isSingleCard :=
          loc.location == "waste" ||
          (loc.location == "tableau" &&
            loc.index + 1 == (s.tableau.getD loc.pileIndex []).length)
        let foundationIndex := getFoundationIndex card.suit
        let tryFoundation :=
          loc.location != "foundation" && isSingleCard &&
          canPlaceOnFoundation s card foundationIndex
        if tryFoundation then
          match moveCards cfg s loc { location := "foundation", pileIndex := foundationIndex } with
          | some s' => (s', some { location := "foundation", pileIndex := foundationIndex })
          | none => (s, none)
        else
          -- Then, try to move to tableau
          match (List.range 7).find? fun i =>
              !(loc.location == "tableau" && loc.pileIndex == i) && canPlaceOnTableau s card i with
          | some i =>
            match moveCards cfg s loc { location := "tableau", pileIndex := i } with
            | some s' => (s', some { location := "tableau", pileIndex := i })
            | none => (s, none)
          | none => (s, none)

/-! ## Hint engine

`getHint()` returns a JS object whose shape varies with the kind of hint;
the `Hint` structure has an optional field for every property any of the
return sites sets. -/

/-- A hint object: `from.cardId`, `from.location`, `from.pileIndex`,
`from.index`, `to.location`, `to.pileIndex`, `action`, `exposesCard`,
each present only at the return sites that set it. -/

structure Hint where
  fromCardId : Option (Suit × Int) := none
  fromLocation : String
  fromPileIndex : Option Nat := none
  fromIndex : Option Nat := none
  toLocation : String
  toPileIndex : Option Nat := none
  action : Option String := none
  exposesCard : Option Bool := none
deriving DecidableEq, Repr

/-- Priority 1a of `getHint`: waste top card to its foundation. -/

def hintWasteFoundation (s : GameState) : Option Hint :=
  match getTopWasteCard s with
  | none => none
  | some wasteCard =>
    let fi := getFoundationIndex wasteCard.suit
    if canPlaceOnFoundation s wasteCard fi then
      some { fromCardId := some wasteCard.id, fromLocation := "waste"
             toLocation := "foundation", toPileIndex := some fi }
    else none

/-- Priority 1b of `getHint`: each tableau pile's face-up top card to its
foundation, piles scanned 0..6. -/

def hintTableauFoundation (s : GameState) : Option Hint :=
  (List.range 7).findSome? fun i =>
    let pile := s.tableau.getD i []
    match pile.getLast? with
    | none => none
    | some topCard =>
      if !topCard.faceUp then none
      else
        let fi := getFoundationIndex topCard.suit
        if canPlaceOnFoundation s topCard fi then
          some { fromCardId := some topCard.id, fromLocation := "tableau"
                 fromPileIndex := some i
                 toLocation := "foundation", toPileIndex := some fi }
        else none

/-- Priority 2 of `getHint`: waste top card to the first legal tableau
pile, 0..6. -/

def hintWasteTableau (s : GameState) : Option Hint :=
  match getTopWasteCard s with
  | none => none
  | some wasteCard =>
    (List.range 7).findSome? fun i =>
      if canPlaceOnTableau s wasteCard i then
        some { fromCardId := some wasteCard.id, fromLocation := "waste"
               toLocation := "tableau", toPileIndex := some i }
      else none

/-- Priority 3 of `getHint`: tableau-to-tableau moves.  Source piles
`i` = 0..6; inside a pile the card indices `j` run from 0 (the buried end
of the pile) upward, restricted to face-up cards; destinations `k` = 0..6
skipping `k = i`; the first candidate is returned, except that a King
(`rank === 13`) sitting at `j === 0` moving to an empty pile is skipped. -/

def hintTableauTableau (s : GameState) : Option Hint :=
  (List.range 7).findSome? fun i =>
    let pile := s.tableau.getD i []
    (List.range pile.length).findSome? fun j =>
      match pile.get? j with
      | none => none
      | some card =>
        if !card.faceUp then none
        else
          let wouldExpose :=
            decide (0 < j) && !((pile.getD (j - 1) (createCard .hearts 1)).faceUp)
          (List.range 7).findSome? fun k =>
            if k == i then none
            else if canPlaceOnTableau s card k then
              if card.rank == 13 && j == 0 && (s.tableau.getD k []).length == 0 then none
              else
                some { fromCardId := some card.id, fromLocation := "tableau"
                       fromPileIndex := some i, fromIndex := some j
                       toLocation := "tableau", toPileIndex := some k
                       exposesCard := some wouldExpose }
            else none

/-- `getHint()`: the five priorities in order, then `null`. -/

def getHint (s : GameState) : Option Hint :=
  match hintWasteFoundation s with
  | some h => some h
  | none =>
    match hintTableauFoundation s with
    | some h => some h
    | none =>
      match hintWasteTableau s with
      | some h => some h
      | none =>
        match hintTableauTableau s with
        | some h => some h
        | none =>
          if s.stock.length ≠ 0 then
            some { fromLocation := "stock", toLocation := "waste", action := some "draw" }
          else if s.waste.length ≠ 0 then
            some { fromLocation := "waste", toLocation := "stock", action := some "reset" }
          else none

/-! ## Card conservation infrastructure

The partition invariant is about the multiset of `(suit, rank)` identities
("keys") spread across the pile groups; `faceUp` flips must not count. -/

/-- The conserved identity of a card. -/

def cardKey (c : Card) : Suit × Int := (c.suit, c.rank)

/-- The multiset of card keys of a pile. -/

def keys (l : List Card) : Multiset (Suit × Int) := (l.map cardKey : List (Suit × Int))

/-- The multiset of card keys of a pile group. -/

def pilesKeys (ps : List (List Card)) : Multiset (Suit × Int) := (ps.map keys).sum

/-- All card keys in a game state (stock, waste, foundations, tableau;
the history is bookkeeping, not a card holding place). -/

def stateKeys (s : GameState) : Multiset (Suit × Int) :=
  keys s.stock + keys s.waste + pilesKeys s.foundations + pilesKeys s.tableau

/-- All card keys in a history snapshot. -/

def snapKeys (p : Snap) : Multiset (Suit × Int) :=
  keys p.stock + keys p.waste + pilesKeys p.foundations + pilesKeys p.tableau

/-- The key multiset of the freshly constructed 52-card deck. -/

def fullDeckKeys : Multiset (Suit × Int) := keys createDeck

/-! ## The reachability invariant (C1) -/

/-- The conservation invariant: the live piles hold exactly the
`fullDeckKeys` multiset, and so does every history snapshot (so that
`undo` restores a conserving state). -/

def Inv (s : GameState) : Prop :=
  stateKeys s = fullDeckKeys ∧ ∀ p ∈ s.history, snapKeys p = fullDeckKeys

/-- The states reachable from `newGame` by the engine's mutating
operations.  The `move` step captures "caller-validated legal arguments"
by the two consequences the proof needs: the call completed without
throwing (in-range pile indices), and the destination descriptor names a
foundation or tableau pile — every legality check callers perform implies
both, so every caller-validated move is a `move` step. -/

inductive Reachable : GameState → Prop where
  | init (seed now : Nat) : Reachable (newGame seed now)
  | draw (cfg : Settings) {s : GameState} :
      Reachable s → Reachable (drawFromStock cfg s).1
  | move (cfg : Settings) {s s' : GameState} (src dst : LocDesc)
      (hdst : dst.location = "foundation" ∨ dst.location = "tableau")
      (hcall : moveCards cfg s src dst = some s') :
      Reachable s → Reachable s'
  | autoMove (cfg : Settings) {s : GameState} (cid : Suit × Int) :
      Reachable s → Reachable (tryAutoMove cfg s cid).1
  | undoMove {s : GameState} : Reachable s → Reachable (undo s).1

/-! ## Operation sequences, undo chains (C2) -/

/-- One mutating engine operation, as named by the spec's reversibility
property. -/

inductive Op where
  | draw : Op
  | move (src dst : LocDesc) : Op
  | auto (cid : Suit × Int) : Op
deriving DecidableEq, Repr

/-- Run one operation, returning the resulting state and its success
flag (`drawFromStock`/`moveCards` booleans; `tryAutoMove` succeeds when
it returns a destination). -/

def applyOp (cfg : Settings) (s : GameState) : Op → GameState × Bool
  | .draw => drawFromStock cfg s
  | .move src dst =>
    match moveCards cfg s src dst with
    | some s' => (s', true)
    | none => (s, false)
  | .auto cid =>
    let r := tryAutoMove cfg s cid
    (r.1, r.2.isSome)

/-- Run a sequence of operations, `none` as soon as one is unsuccessful. -/

def runOps (cfg : Settings) : GameState → List Op → Option GameState
  | s, [] => some s
  | s, op :: rest =>
    let r := applyOp cfg s op
    if r.2 then runOps cfg r.1 rest else none

/-- The pre-operation snapshots taken along a run. -/

def runTrace (cfg : Settings) : GameState → List Op → List Snap
  | _, [] => []
  | s, op :: rest => mkSnap s :: runTrace cfg (applyOp cfg s op).1 rest

/-- `n` consecutive `undo()` calls. -/

def undoN : Nat → GameState → GameState
  | 0, s => s
  | n + 1, s => undoN n (undo s).1

/-- The standard-scoring, draw-1 settings used by several concrete
scenarios below. -/

def cfgStandard : Settings := { drawCount := 1, scoring := "standard" }

/-- A minimal legal-shaped state with a single card in the stock; each
`drawFromStock` call on it alternates draw and reset, so arbitrarily many
successful operations are available. -/

def oneCardState : GameState :=
  { stock := [createCard .spades 1]
    waste := []
    foundations := [[], [], [], []]
    tableau := [[], [], [], [], [], [], []]
    history := []
    moves := 0
    score := 0
    startTime := 0
    seed := 0 }

/-- A small fixture: spades-5 face-up on tableau pile 0, everything else
empty (the spec's tableau placement scenario). -/

def c3State : GameState :=
  { stock := []
    waste := []
    foundations := [[], [], [], []]
    tableau := [[{ suit := .spades, rank := 5, faceUp := true }], [], [], [], [], [], []]
    history := []
    moves := 0
    score := 0
    startTime := 0
    seed := 0 }

/-- Vegas scoring, draw 1: the spec's stock-reset scenario settings. -/

def cfgVegas : Settings := { drawCount := 1, scoring := "vegas" }

/-- The spec's stock-reset scenario: empty stock, waste = [A-spades],
Vegas score 50. -/

def c4State : GameState :=
  { stock := []
    waste := [{ suit := .spades, rank := 1, faceUp := true }]
    foundations := [[], [], [], []]
    tableau := [[], [], [], [], [], [], []]
    history := []
    moves := 0
    score := 50
    startTime := 0
    seed := 0 }

/-- A state where the waste top (A-hearts) goes to its foundation AND a
tableau-to-tableau move (hearts-4 onto spades-5) is also available. -/

def c6State : GameState :=
  { stock := []
    waste := [{ suit := .hearts, rank := 1, faceUp := true }]
    foundations := [[], [], [], []]
    tableau := [[{ suit := .spades, rank := 5, faceUp := true }],
                [{ suit := .hearts, rank := 4, faceUp := true }], [], [], [], [], []]
    history := []
    moves := 0
    score := 0
    startTime := 0
    seed := 0 }

/-- A completely empty state: empty piles and history. -/

def emptyState : GameState :=
  { stock := []
    waste := []
    foundations := [[], [], [], []]
    tableau := [[], [], [], [], [], [], []]
    history := []
    moves := 3
    score := 7
    startTime := 11
    seed := 13 }

/-! ## `moveCards` totality (C9) -/

/-- The indices a descriptor's recognized tag dereferences are in range
(the condition under which the source's `moveCards` cannot throw). -/

def inRangeDesc (s : GameState) (d : LocDesc) : Prop :=
  (d.location = "foundation" → d.pileIndex < s.foundations.length) ∧
  (d.location = "tableau" → d.pileIndex < s.tableau.length)

/-! ## The tableau-to-tableau hint scan (C7) -/

/-- The flat scan order of `getHint`'s tableau-to-tableau stage, written
from the (amended) claim's wording: source piles `i` = 0..6 in order;
within a pile the card positions `j` from the buried end (index 0)
upward; destinations `k` = 0..6 in order. -/

def tableauScanTriples (s : GameState) : List (Nat × Nat × Nat) :=
  (List.range 7).flatMap fun i =>
    (List.range (s.tableau.getD i []).length).flatMap fun j =>
      (List.range 7).map fun k => (i, j, k)

/-- Written from the (amended) claim's wording: the candidate hint at
scan position `(i, j, k)` — the card must exist and be face-up, `k` must
differ from `i`, the placement must be legal, and a King sitting at
position 0 of its pile (regardless of the pile's size) moving to an
empty pile is skipped. -/

def tableauHintAt (s : GameState) : Nat × Nat × Nat → Option Hint
  | (i, j, k) =>
    match (s.tableau.getD i []).get? j with
    | none => none
    | some card =>
      if !card.faceUp then none
      else if k == i then none
      else if canPlaceOnTableau s card k then
        if card.rank == 13 && j == 0 && (s.tableau.getD k []).length == 0 then none
        else
          some { fromCardId := some card.id
                 fromLocation := "tableau"
                 fromPileIndex := some i
                 fromIndex := some j
                 toLocation := "tableau"
                 toPileIndex := some k
                 exposesCard := some (decide (0 < j) &&
                   !(((s.tableau.getD i []).getD (j - 1) (createCard .hearts 1)).faceUp)) }
      else none

/-- Tableau pile 0 = [K-spades (face-up), Q-hearts (face-up)], pile 1
empty, everything else empty: the King sits at position 0 of a TWO-card
pile, so by the claim's wording its move to the empty pile 1 must be
offered. -/

def c7State : GameState :=
  { stock := []
    waste := []
    foundations := [[], [], [], []]
    tableau := [[{ suit := .spades, rank := 13, faceUp := true },
                 { suit := .hearts, rank := 12, faceUp := true }], [], [], [], [], [], []]
    history := []
    moves := 0
    score := 0
    startTime := 0
    seed := 0 }

/-- Tableau pile 0 = [6-spades (face-down), Q-hearts (face-up)], pile 1 =
[K-clubs (face-up)]: the scan's first candidate is Q-hearts (pile 0,
position 1) onto K-clubs (pile 1), exposing the face-down 6. -/

def c7WitnessState : GameState :=
  { stock := []
    waste := []
    foundations := [[], [], [], []]
    tableau := [[{ suit := .spades, rank := 6, faceUp := false },
                 { suit := .hearts, rank := 12, faceUp := true }],
                [{ suit := .clubs, rank := 13, faceUp := true }], [], [], [], [], []]
    history := []
    moves := 0
    score := 0
    startTime := 0
    seed := 0 }

/-! ## Theorems -/

theorem keys_nil : keys [] = 0 := rfl

theorem keys_append (a b : List Card) : keys (a ++ b) = keys a + keys b := by
  simp [keys, ← Multiset.coe_add]

theorem keys_reverse (l : List Card) : keys l.reverse = keys l := by
  simp [keys, Multiset.coe_reverse]

theorem keys_map_of_key_fixed (f : Card → Card) (hf : ∀ c, cardKey (f c) = cardKey c)
    (l : List Card) : keys (l.map f) = keys l := by
  simp only [keys, List.map_map]
  congr 1
  exact List.map_congr_left fun c _ => hf c

theorem keys_mapIdx_of_key_fixed (f : Nat → Card → Card)
    (hf : ∀ i c, cardKey (f i c) = cardKey c) (l : List Card) :
    keys (l.mapIdx f) = keys l := by
  induction l using List.reverseRecOn with
  | nil => rfl
  | append_singleton xs x ih =>
    rw [List.mapIdx_append_one, keys_append, keys_append, ih]
    simp [keys, hf]

theorem keys_dropLast_getLast? (l : List Card) :
    keys l.dropLast + keys l.getLast?.toList = keys l := by
  cases h : l.getLast? with
  | none =>
    have : l = [] := List.getLast?_eq_none_iff.mp h
    subst this; rfl
  | some c =>
    have hne : l ≠ [] := by
      intro he; subst he; simp at h
    have hc : l.getLast hne = c := by
      have := List.getLast?_eq_getLast l hne
      rw [h] at this; exact (Option.some_inj.mp this.symm)
    conv_rhs => rw [← List.dropLast_append_getLast hne]
    rw [keys_append, hc]
    rfl

theorem keys_take_drop (l : List Card) (n : Nat) :
    keys (l.take n) + keys (l.drop n) = keys l := by
  rw [← keys_append, List.take_append_drop]

theorem keys_cons (c : Card) (l : List Card) : keys (c :: l) = {cardKey c} + keys l := by
  rw [Multiset.singleton_add]; rfl

theorem keys_set (l : List Card) (i : Nat) (x : Card) (h : i < l.length) :
    keys (l.set i x) + {cardKey (l.get ⟨i, h⟩)} = keys l + {cardKey x} := by
  induction l generalizing i with
  | nil => simp at h
  | cons a t ih =>
    cases i with
    | zero =>
      simp only [List.set, List.get, keys_cons]
      abel
    | succ n =>
      have hn : n < t.length := by simpa using h
      simp only [List.set, List.get, keys_cons]
      rw [add_assoc, add_assoc, ih n hn]

theorem pilesKeys_nil : pilesKeys [] = 0 := rfl

theorem pilesKeys_cons (p : List Card) (ps : List (List Card)) :
    pilesKeys (p :: ps) = keys p + pilesKeys ps := by
  simp [pilesKeys]

theorem pilesKeys_set (ps : List (List Card)) (i : Nat) (x : List Card)
    (h : i < ps.length) :
    pilesKeys (ps.set i x) + keys (ps.get ⟨i, h⟩) = pilesKeys ps + keys x := by
  induction ps generalizing i with
  | nil => simp at h
  | cons p t ih =>
    cases i with
    | zero =>
      simp only [List.set, List.get, pilesKeys_cons]
      abel
    | succ n =>
      have hn : n < t.length := by simpa using h
      simp only [List.set, List.get, pilesKeys_cons]
      rw [add_assoc, add_assoc, ih n hn]

theorem getD_eq_get (ps : List (List Card)) (i : Nat) (h : i < ps.length) :
    ps.getD i [] = ps.get ⟨i, h⟩ := by
  simp [List.getD_eq_getElem?_getD, List.getElem?_eq_getElem h]

theorem stateKeys_saveState (s : GameState) : stateKeys (saveState s) = stateKeys s := rfl

theorem snapKeys_mkSnap (s : GameState) : snapKeys (mkSnap s) = stateKeys s := rfl

theorem mem_pushHistory {h : List Snap} {x p : Snap} (hp : p ∈ pushHistory h x) :
    p ∈ h ∨ p = x := by
  simp only [pushHistory] at hp
  split at hp
  · have := List.mem_of_mem_drop hp
    simpa using this
  · simpa using hp

/-- What `removeFromSource` does to the card keys and to the frame
fields: the removed cards' keys plus the remaining state's keys are the
original keys, and history, moves, score, startTime, seed are untouched. -/

theorem removeFromSource_spec {t : GameState} {src : LocDesc}
    {t1 : GameState} {cards : List Card} {fl : Bool}
    (h : removeFromSource t src = some (t1, cards, fl)) :
    stateKeys t1 + keys cards = stateKeys t ∧
    t1.history = t.history ∧ t1.moves = t.moves ∧ t1.score = t.score ∧
    t1.startTime = t.startTime ∧ t1.seed = t.seed := by
  unfold removeFromSource at h
  split at h
  · -- waste
    simp only [Option.some.injEq, Prod.mk.injEq] at h
    obtain ⟨h1, h2, h3⟩ := h
    subst h1; subst h2
    refine ⟨?_, rfl, rfl, rfl, rfl, rfl⟩
    refine Multiset.ext.mpr fun k => ?_
    have hw := congrArg (Multiset.count k) (keys_dropLast_getLast? t.waste)
    simp only [stateKeys, Multiset.count_add] at hw ⊢
    omega
  · split at h
    · -- foundation
      cases hget : t.foundations.get? src.pileIndex with
      | none => rw [hget] at h; exact absurd h (by simp)
      | some pile =>
        rw [hget] at h
        simp only [Option.some.injEq, Prod.mk.injEq] at h
        obtain ⟨h1, h2, h3⟩ := h
        subst h1; subst h2
        refine ⟨?_, rfl, rfl, rfl, rfl, rfl⟩
        obtain ⟨hlt, hv⟩ := List.get?_eq_some.mp hget
        refine Multiset.ext.mpr fun k => ?_
        have hps := congrArg (Multiset.count k)
          (pilesKeys_set t.foundations src.pileIndex pile.dropLast hlt)
        have hdl := congrArg (Multiset.count k) (keys_dropLast_getLast? pile)
        rw [hv] at hps
        simp only [stateKeys, Multiset.count_add] at hps hdl ⊢
        omega
    · split at h
      · -- tableau
        cases hget : t.tableau.get? src.pileIndex with
        | none => rw [hget] at h; exact absurd h (by simp)
        | some pile =>
          rw [hget] at h
          simp only at h
          obtain ⟨hlt, hv⟩ := List.get?_eq_some.mp hget
          have htd := congrArg keys (List.take_append_drop src.index pile)
          rw [keys_append] at htd
          cases hlast : (pile.take src.index).getLast? with
          | some c =>
            rw [hlast] at h
            simp only at h
            by_cases hfu : c.faceUp
            · -- top card already face up
              rw [if_neg (by simp [hfu])] at h
              simp only [Option.some.injEq, Prod.mk.injEq] at h
              obtain ⟨h1, h2, h3⟩ := h
              subst h1; subst h2
              refine ⟨?_, rfl, rfl, rfl, rfl, rfl⟩
              have hps := pilesKeys_set t.tableau src.pileIndex (pile.take src.index) hlt
              rw [hv] at hps
              refine Multiset.ext.mpr fun k => ?_
              have c2 := congrArg (Multiset.count k) hps
              have c3 := congrArg (Multiset.count k) htd
              simp only [stateKeys, Multiset.count_add] at c2 c3 ⊢
              omega
            · -- flip the uncovered face-down top card
              rw [if_pos (by simp [hfu])] at h
              simp only [Option.some.injEq, Prod.mk.injEq] at h
              obtain ⟨h1, h2, h3⟩ := h
              subst h1; subst h2
              refine ⟨?_, rfl, rfl, rfl, rfl, rfl⟩
              set rest := pile.take src.index with hrest
              have hne : rest ≠ [] := by
                intro he; rw [he] at hlast; simp at hlast
              have hgl : rest.getLast hne = c := by
                have := List.getLast?_eq_getLast rest hne
                rw [hlast] at this
                exact Option.some_inj.mp this.symm
              have hlt2 : rest.length - 1 < rest.length := by
                have := List.length_pos.mpr hne
                omega
              have hgetc : rest.get ⟨rest.length - 1, hlt2⟩ = c := by
                rw [← hgl, List.getLast_eq_getElem]
                simp [List.get_eq_getElem]
              have hks := keys_set rest (rest.length - 1) { c with faceUp := true } hlt2
              rw [hgetc] at hks
              have hck : cardKey { c with faceUp := true } = cardKey c := rfl
              rw [hck] at hks
              have hps := pilesKeys_set t.tableau src.pileIndex
                (rest.set (rest.length - 1) { c with faceUp := true }) hlt
              rw [hv] at hps
              refine Multiset.ext.mpr fun k => ?_
              have c1 := congrArg (Multiset.count k) hks
              have c2 := congrArg (Multiset.count k) hps
              have c3 := congrArg (Multiset.count k) htd
              simp only [stateKeys, Multiset.count_add] at c1 c2 c3 ⊢
              omega
          | none =>
            rw [hlast] at h
            simp only [Option.some.injEq, Prod.mk.injEq] at h
            obtain ⟨h1, h2, h3⟩ := h
            subst h1; subst h2
            refine ⟨?_, rfl, rfl, rfl, rfl, rfl⟩
            have hps := pilesKeys_set t.tableau src.pileIndex (pile.take src.index) hlt
            rw [hv] at hps
            refine Multiset.ext.mpr fun k => ?_
            have c2 := congrArg (Multiset.count k) hps
            have c3 := congrArg (Multiset.count k) htd
            simp only [stateKeys, Multiset.count_add] at c2 c3 ⊢
            omega
      · -- unrecognized source tag: nothing removed
        simp only [Option.some.injEq, Prod.mk.injEq] at h
        obtain ⟨h1, h2, h3⟩ := h
        subst h1; subst h2
        exact ⟨by simp [keys_nil], rfl, rfl, rfl, rfl, rfl⟩

/-- What `addToDest` does to the card keys and the frame fields: a
recognized destination receives exactly the moved cards' keys; an
unrecognized destination tag leaves the state untouched (the cards are
dropped).  History, moves, startTime, seed are never touched. -/

theorem addToDest_spec {cfg : Settings} {t : GameState} {cards : List Card}
    {fl : Bool} {dst : LocDesc} {t2 : GameState}
    (h : addToDest cfg t cards fl dst = some t2) :
    t2.history = t.history ∧ t2.moves = t.moves ∧
    t2.startTime = t.startTime ∧ t2.seed = t.seed ∧
    ((dst.location = "foundation" ∨ dst.location = "tableau") →
      stateKeys t2 = stateKeys t + keys cards) ∧
    (¬(dst.location = "foundation" ∨ dst.location = "tableau") → t2 = t) := by
  unfold addToDest at h
  split at h
  next htag =>
    -- foundation
    rw [beq_iff_eq] at htag
    cases hget : t.foundations.get? dst.pileIndex with
    | none => rw [hget] at h; exact absurd h (by simp)
    | some pile =>
      rw [hget] at h
      simp only at h
      obtain ⟨hlt, hv⟩ := List.get?_eq_some.mp hget
      have hkeys : stateKeys { t with foundations := t.foundations.set dst.pileIndex (pile ++ cards) }
          = stateKeys t + keys cards := by
        have hps := pilesKeys_set t.foundations dst.pileIndex (pile ++ cards) hlt
        rw [hv, keys_append] at hps
        refine Multiset.ext.mpr fun k => ?_
        have c2 := congrArg (Multiset.count k) hps
        simp only [stateKeys, Multiset.count_add] at c2 ⊢
        omega
      split at h
      · obtain rfl := Option.some_inj.mp h
        exact ⟨rfl, rfl, rfl, rfl, fun _ => hkeys,
          fun hn => absurd (Or.inl htag) hn⟩
      · split at h <;>
        · obtain rfl := Option.some_inj.mp h
          exact ⟨rfl, rfl, rfl, rfl, fun _ => hkeys,
            fun hn => absurd (Or.inl htag) hn⟩
  next htag1 =>
    split at h
    next htag =>
      -- tableau
      rw [beq_iff_eq] at htag
      cases hget : t.tableau.get? dst.pileIndex with
      | none => rw [hget] at h; exact absurd h (by simp)
      | some pile =>
        rw [hget] at h
        simp only at h
        obtain ⟨hlt, hv⟩ := List.get?_eq_some.mp hget
        have hkeys : stateKeys { t with tableau := t.tableau.set dst.pileIndex (pile ++ cards) }
            = stateKeys t + keys cards := by
          have hps := pilesKeys_set t.tableau dst.pileIndex (pile ++ cards) hlt
          rw [hv, keys_append] at hps
          refine Multiset.ext.mpr fun k => ?_
          have c2 := congrArg (Multiset.count k) hps
          simp only [stateKeys, Multiset.count_add] at c2 ⊢
          omega
        split at h <;>
        · obtain rfl := Option.some_inj.mp h
          exact ⟨rfl, rfl, rfl, rfl, fun _ => hkeys,
            fun hn => absurd (Or.inr htag) hn⟩
    next htag2 =>
      -- unrecognized destination tag
      obtain rfl := Option.some_inj.mp h
      refine ⟨rfl, rfl, rfl, rfl, fun hor => ?_, fun _ => rfl⟩
      rcases hor with hf | ht
      · exact absurd (by simp [hf]) htag1
      · exact absurd (by simp [ht]) htag2

/-- The single-call contract of `moveCards`: whenever it completes (does
not throw), it has pushed exactly one pre-move snapshot, incremented the
move counter, left `startTime`/`seed` alone, and — as long as the
destination descriptor names a foundation or tableau pile — conserved
the multiset of card keys. -/

theorem moveCards_spec {cfg : Settings} {s : GameState} {src dst : LocDesc}
    {s' : GameState} (h : moveCards cfg s src dst = some s') :
    s'.history = pushHistory s.history (mkSnap s) ∧
    s'.moves = s.moves + 1 ∧
    s'.startTime = s.startTime ∧ s'.seed = s.seed ∧
    ((dst.location = "foundation" ∨ dst.location = "tableau") →
      stateKeys s' = stateKeys s) := by
  unfold moveCards at h
  cases hrem : removeFromSource (saveState s) src with
  | none => rw [hrem] at h; exact absurd h (by simp)
  | some r =>
    obtain ⟨t1, cards, fl⟩ := r
    rw [hrem] at h
    simp only [Option.some_bind] at h
    cases hadd : addToDest cfg t1 cards fl dst with
    | none => rw [hadd] at h; exact absurd h (by simp)
    | some t2 =>
      rw [hadd] at h
      simp only [Option.map_some'] at h
      obtain rfl := Option.some_inj.mp h
      obtain ⟨rk, rh, rm, _, rst, rsd⟩ := removeFromSource_spec hrem
      obtain ⟨ah, am, ast, asd, akeys, _⟩ := addToDest_spec hadd
      refine ⟨?_, ?_, ?_, ?_, fun hor => ?_⟩
      · show t2.history = _
        rw [ah, rh]; rfl
      · show t2.moves + 1 = s.moves + 1
        rw [am, rm]; rfl
      · show t2.startTime = s.startTime
        rw [ast, rst]; rfl
      · show t2.seed = s.seed
        rw [asd, rsd]; rfl
      · show stateKeys { t2 with moves := t2.moves + 1 } = stateKeys s
        have h1 : stateKeys { t2 with moves := t2.moves + 1 } = stateKeys t2 := rfl
        rw [h1, akeys hor, ← stateKeys_saveState s]
        refine Multiset.ext.mpr fun k => ?_
        have c1 := congrArg (Multiset.count k) rk
        simp only [Multiset.count_add] at c1 ⊢
        omega

theorem keys_swapCards (l : List Card) (i j : Nat) : keys (swapCards l i j) = keys l := by
  unfold swapCards
  cases hi : l.get? i with
  | none => rfl
  | some a =>
    cases hj : l.get? j with
    | none => rfl
    | some b =>
      simp only
      obtain ⟨hi', hia⟩ := List.get?_eq_some.mp hi
      obtain ⟨hj', hjb⟩ := List.get?_eq_some.mp hj
      have hj2 : j < (l.set i b).length := by simpa using hj'
      have h1 := keys_set l i b hi'
      have h2 := keys_set (l.set i b) j a hj2
      rw [hia] at h1
      have hgv : (l.set i b).get ⟨j, hj2⟩ = b := by
        by_cases hij : i = j
        · subst hij
          simp [List.get_eq_getElem, List.getElem_set]
        · have hx : (l.set i b).get ⟨j, hj2⟩ = l.get ⟨j, hj'⟩ := by
            simp [List.get_eq_getElem, List.getElem_set, hij]
          rw [hx, hjb]
      rw [hgv] at h2
      refine Multiset.ext.mpr fun k => ?_
      have c1 := congrArg (Multiset.count k) h1
      have c2 := congrArg (Multiset.count k) h2
      simp only [Multiset.count_add] at c1 c2 ⊢
      omega

theorem fisherYates_keys : ∀ (k seed : Nat) (arr : List Card),
    keys (fisherYates k seed arr) = keys arr := by
  intro k
  induction k with
  | zero => intro seed arr; rfl
  | succ n ih =>
    intro seed arr
    show keys (fisherYates n _ (swapCards arr (n + 1) _)) = keys arr
    rw [ih, keys_swapCards]

theorem dealLoop_keys : ∀ (n col : Nat) (deck : List Card),
    pilesKeys (dealLoop n col deck).1 + keys (dealLoop n col deck).2 = keys deck := by
  intro n
  induction n with
  | zero => intro col deck; simp [dealLoop, pilesKeys_nil]
  | succ m ih =>
    intro col deck
    simp only [dealLoop]
    rw [pilesKeys_cons, add_assoc, ih,
      keys_mapIdx_of_key_fixed (fun r c => { c with faceUp := r == col })
        (fun _ _ => rfl), keys_take_drop]

theorem stateKeys_newGame (seed now : Nat) : stateKeys (newGame seed now) = fullDeckKeys := by
  have key : ∀ d : List Card, keys d = keys createDeck →
      stateKeys
        { stock := (dealLoop 7 0 d).2
          waste := []
          foundations := [[], [], [], []]
          tableau := (dealLoop 7 0 d).1
          history := []
          moves := 0
          score := 0
          startTime := now
          seed := seed } = fullDeckKeys := by
    intro d hd
    have hdeal := dealLoop_keys 7 0 d
    show keys (dealLoop 7 0 d).2 + keys [] +
        pilesKeys [[], [], [], []] + pilesKeys (dealLoop 7 0 d).1 = fullDeckKeys
    have hempty : pilesKeys ([[], [], [], []] : List (List Card)) = 0 := rfl
    refine Multiset.ext.mpr fun k => ?_
    have c1 := congrArg (Multiset.count k) hdeal
    have c2 := congrArg (Multiset.count k) hd
    rw [keys_nil, hempty]
    simp only [Multiset.count_add, fullDeckKeys] at c1 c2 ⊢
    simp only [Multiset.count_zero]
    omega
  exact key (shuffle createDeck seed) (fisherYates_keys _ _ _)

theorem drawLoop_keys : ∀ (n : Nat) (stock waste : List Card),
    keys (drawLoop n stock waste).1 + keys (drawLoop n stock waste).2 =
      keys stock + keys waste := by
  intro n
  induction n with
  | zero => intro stock waste; rfl
  | succ m ih =>
    intro stock waste
    unfold drawLoop
    cases hl : stock.getLast? with
    | none => rfl
    | some c =>
      simp only
      have hdl := keys_dropLast_getLast? stock
      rw [hl] at hdl
      have hkc : keys (Option.some c).toList = {cardKey c} := rfl
      rw [hkc] at hdl
      refine Multiset.ext.mpr fun k => ?_
      have c1 := congrArg (Multiset.count k) (ih stock.dropLast (waste ++ [{ c with faceUp := true }]))
      have c2 := congrArg (Multiset.count k) hdl
      have c3 := congrArg (Multiset.count k)
        (keys_append waste [{ c with faceUp := true }])
      have hck : keys [{ c with faceUp := true }] = {cardKey c} := rfl
      rw [hck] at c3
      simp only [Multiset.count_add] at c1 c2 c3 ⊢
      omega

theorem inv_saveState {s : GameState} (h : Inv s) : Inv (saveState s) := by
  refine ⟨h.1, fun p hp => ?_⟩
  rcases mem_pushHistory hp with hm | rfl
  · exact h.2 p hm
  · exact h.1

theorem inv_drawFromStock (cfg : Settings) {s : GameState} (h : Inv s) :
    Inv (drawFromStock cfg s).1 := by
  have e1 : (saveState s).stock = s.stock := rfl
  have e2 : (saveState s).waste = s.waste := rfl
  have e3 : (saveState s).foundations = s.foundations := rfl
  have e4 : (saveState s).tableau = s.tableau := rfl
  unfold drawFromStock
  split
  next hstock =>
    split
    · exact h
    next hwaste =>
      have hstock0 : s.stock = [] := List.length_eq_zero.mp hstock
      have hs1 := inv_saveState h
      have h2 : Inv { saveState s with
          stock := (saveState s).waste.reverse.map fun c => { c with faceUp := false }
          waste := ([] : List Card) } := by
        refine ⟨?_, hs1.2⟩
        show keys ((saveState s).waste.reverse.map fun c => { c with faceUp := false }) +
            keys [] + pilesKeys (saveState s).foundations +
            pilesKeys (saveState s).tableau = fullDeckKeys
        rw [e2, e3, e4,
          keys_map_of_key_fixed (fun c => { c with faceUp := false }) (fun _ => rfl),
          keys_reverse]
        have c0 := h.1
        refine Multiset.ext.mpr fun k => ?_
        have c1 := congrArg (Multiset.count k) c0
        have c2 : Multiset.count k (keys s.stock) = 0 := by
          rw [hstock0, keys_nil, Multiset.count_zero]
        simp only [stateKeys, Multiset.count_add, keys_nil, Multiset.count_zero] at c1 ⊢
        omega
      split
      · exact ⟨h2.1, h2.2⟩
      · exact h2
  next =>
    have hs1 := inv_saveState h
    refine ⟨?_, hs1.2⟩
    show keys (drawLoop (min cfg.drawCount (saveState s).stock.length)
        (saveState s).stock (saveState s).waste).1 +
      keys (drawLoop (min cfg.drawCount (saveState s).stock.length)
        (saveState s).stock (saveState s).waste).2 +
      pilesKeys (saveState s).foundations + pilesKeys (saveState s).tableau = fullDeckKeys
    rw [e1, e2, e3, e4]
    have hdl := drawLoop_keys (min cfg.drawCount s.stock.length) s.stock s.waste
    refine Multiset.ext.mpr fun k => ?_
    have c0 := congrArg (Multiset.count k) h.1
    have c1 := congrArg (Multiset.count k) hdl
    simp only [stateKeys, Multiset.count_add] at c0 c1 ⊢
    omega

theorem inv_undo {s : GameState} (h : Inv s) : Inv (undo s).1 := by
  unfold undo
  cases hl : s.history.getLast? with
  | none => exact h
  | some p =>
    refine ⟨?_, fun q hq => h.2 q (List.dropLast_subset s.history hq)⟩
    have hp := h.2 p (List.mem_of_getLast?_eq_some hl)
    exact hp

theorem inv_moveCards {cfg : Settings} {s s' : GameState} {src dst : LocDesc}
    (hdst : dst.location = "foundation" ∨ dst.location = "tableau")
    (h : moveCards cfg s src dst = some s') (hi : Inv s) : Inv s' := by
  obtain ⟨hh, _, _, _, hk⟩ := moveCards_spec h
  refine ⟨by rw [hk hdst]; exact hi.1, fun p hp => ?_⟩
  rw [hh] at hp
  rcases mem_pushHistory hp with hm | rfl
  · exact hi.2 p hm
  · exact hi.1

theorem inv_tryAutoMove (cfg : Settings) {s : GameState} (cid : Suit × Int)
    (h : Inv s) : Inv (tryAutoMove cfg s cid).1 := by
  unfold tryAutoMove
  cases hf : findCard s cid with
  | none => exact h
  | some loc =>
    simp only
    split
    · exact h
    · split
      · exact h
      · split
        · split
          next s' hm => exact inv_moveCards (Or.inl rfl) hm h
          next => exact h
        · split
          · split
            next s' hm => exact inv_moveCards (Or.inr rfl) hm h
            next => exact h
          · exact h

theorem inv_of_reachable {s : GameState} (h : Reachable s) : Inv s := by
  induction h with
  | init seed now =>
    exact ⟨stateKeys_newGame seed now, fun p hp => absurd hp (by simp [newGame])⟩
  | draw cfg _ ih => exact inv_drawFromStock cfg ih
  | move cfg src dst hdst hcall _ ih => exact inv_moveCards hdst hcall ih
  | autoMove cfg cid _ ih => exact inv_tryAutoMove cfg cid ih
  | undoMove _ ih => exact inv_undo ih

/-- C1: for every state reachable from `newGame` by any sequence of
`drawFromStock`, `moveCards` (with caller-validated legal arguments),
`tryAutoMove` and `undo` calls, the multiset of `(suit, rank)` identities
across stock, waste, the four foundations and the seven tableau piles is
exactly the 52 distinct cards of the fresh deck: no card is duplicated
and none is lost. -/

theorem C1_partition_invariant (s : GameState) (h : Reachable s) :
    stateKeys s = fullDeckKeys ∧ (stateKeys s).Nodup ∧ Multiset.card (stateKeys s) = 52 := by
  have hk := (inv_of_reachable h).1
  refine ⟨hk, ?_, ?_⟩ <;> rw [hk]
  · decide
  · decide

theorem C1_partition_invariant_witness :
    stateKeys (newGame 11982 0) = fullDeckKeys ∧
    (stateKeys (newGame 11982 0)).Nodup ∧
    Multiset.card (stateKeys (newGame 11982 0)) = 52 :=
  C1_partition_invariant (newGame 11982 0) (Reachable.init 11982 0)

theorem drawFromStock_true_history {cfg : Settings} {s : GameState}
    (h : (drawFromStock cfg s).2 = true) :
    (drawFromStock cfg s).1.history = pushHistory s.history (mkSnap s) := by
  unfold drawFromStock at h ⊢
  split
  next hstock =>
    split
    next hwaste =>
      simp only [if_pos hstock, if_pos hwaste] at h
      exact absurd h (by simp)
    next hwaste =>
      dsimp only
      split <;> rfl
  next hstock => rfl

/-- `tryAutoMove` either leaves the state alone and reports `none`, or
performs exactly one `moveCards` call whose result it returns. -/

theorem tryAutoMove_cases (cfg : Settings) (s : GameState) (cid : Suit × Int) :
    tryAutoMove cfg s cid = (s, none) ∨
    ∃ src dst s', moveCards cfg s src dst = some s' ∧
      tryAutoMove cfg s cid = (s', some dst) := by
  unfold tryAutoMove
  split
  · left; rfl
  · dsimp only
    repeat' split
    all_goals first
      | (left; rfl)
      | (right; exact ⟨_, _, _, by assumption, rfl⟩)

/-- Every successful operation pushes exactly one pre-operation snapshot
(and nothing else touches the history). -/

theorem applyOp_true_history {cfg : Settings} {s s' : GameState} {op : Op}
    (h : applyOp cfg s op = (s', true)) :
    s'.history = pushHistory s.history (mkSnap s) := by
  cases op with
  | draw =>
    have h1 : (drawFromStock cfg s).1 = s' := congrArg Prod.fst h
    have h2 : (drawFromStock cfg s).2 = true := congrArg Prod.snd h
    rw [← h1]
    exact drawFromStock_true_history h2
  | move src dst =>
    simp only [applyOp] at h
    cases hm : moveCards cfg s src dst with
    | none => rw [hm] at h; exact absurd (congrArg Prod.snd h) (by simp)
    | some t =>
      rw [hm] at h
      obtain rfl : t = s' := congrArg Prod.fst h
      exact (moveCards_spec hm).1
  | auto cid =>
    simp only [applyOp] at h
    rcases tryAutoMove_cases cfg s cid with hc | ⟨src, dst, t, hm, hc⟩
    · rw [hc] at h
      exact absurd (congrArg Prod.snd h) (by simp)
    · rw [hc] at h
      obtain rfl : t = s' := congrArg Prod.fst h
      exact (moveCards_spec hm).1

theorem pushHistory_suffix {h σ : List Snap} (x : Snap) (hs : σ <:+ h)
    (hl : σ.length + 1 ≤ 50) : (σ ++ [x]) <:+ pushHistory h x := by
  obtain ⟨t, rfl⟩ := hs
  unfold pushHistory
  dsimp only
  split
  next hlen =>
    cases t with
    | nil =>
      simp only [List.nil_append] at hlen
      simp at hlen
      omega
    | cons a t' =>
      refine ⟨t', ?_⟩
      simp
  next =>
    exact ⟨t, by simp⟩

theorem runTrace_length (cfg : Settings) :
    ∀ (ops : List Op) (s : GameState), (runTrace cfg s ops).length = ops.length := by
  intro ops
  induction ops with
  | nil => intro s; rfl
  | cons op rest ih =>
    intro s
    simp only [runTrace, List.length_cons, ih]

/-- Along a successful run of at most `50 - σ.length` operations, a
suffix `σ` of the starting history survives, extended by the run's
pre-operation snapshots. -/

theorem runOps_suffix (cfg : Settings) :
    ∀ (ops : List Op) (s s' : GameState) (σ : List Snap),
      runOps cfg s ops = some s' → σ <:+ s.history → σ.length + ops.length ≤ 50 →
      (σ ++ runTrace cfg s ops) <:+ s'.history := by
  intro ops
  induction ops with
  | nil =>
    intro s s' σ h hs _
    obtain rfl := Option.some_inj.mp h
    simpa [runTrace] using hs
  | cons op rest ih =>
    intro s s' σ h hs hl
    simp only [runOps] at h
    by_cases hr2 : (applyOp cfg s op).2 = true
    · rw [if_pos hr2] at h
      have hfull : applyOp cfg s op = ((applyOp cfg s op).1, true) := by
        rw [← hr2]
      have hh := applyOp_true_history hfull
      have hsuf := pushHistory_suffix (mkSnap s) hs
        (by simp only [List.length_cons] at hl; omega)
      rw [← hh] at hsuf
      have hrec := ih (applyOp cfg s op).1 s' (σ ++ [mkSnap s]) h hsuf
        (by simp only [List.length_append, List.length_singleton, List.length_nil,
          List.length_cons] at hl ⊢; omega)
      simpa [runTrace, List.append_assoc] using hrec
    · rw [if_neg hr2] at h
      exact absurd h (by simp)

/-- Undoing `tr.length + 1` times from a state whose history ends with
`x :: tr` restores the snapshot `x`. -/

theorem undoN_restore :
    ∀ (tr : List Snap) (x : Snap) (s : GameState),
      (x :: tr) <:+ s.history → mkSnap (undoN (tr.length + 1) s) = x := by
  intro tr
  induction tr using List.reverseRecOn with
  | nil =>
    intro x s h
    obtain ⟨t, ht⟩ := h
    have hgl : s.history.getLast? = some x := by
      rw [← ht]
      exact List.getLast?_concat _
    show mkSnap (undo s).1 = x
    unfold undo
    rw [hgl]
    rfl
  | append_singleton ys y ih =>
    intro x s h
    obtain ⟨t, ht⟩ := h
    have hassoc : s.history = (t ++ x :: ys) ++ [y] := by
      rw [← ht]; simp
    have hgl : s.history.getLast? = some y := by
      rw [hassoc]; exact List.getLast?_concat _
    have hdrop : s.history.dropLast = t ++ x :: ys := by
      rw [hassoc]; exact List.dropLast_concat
    have hlen : (ys ++ [y]).length + 1 = ys.length + 1 + 1 := by simp
    rw [hlen]
    show mkSnap (undoN (ys.length + 1) (undo s).1) = x
    apply ih x
    have hu : (undo s).1.history = s.history.dropLast := by
      unfold undo
      rw [hgl]
    rw [hu, hdrop]
    exact ⟨t, rfl⟩

/-- C2 (amended): for any sequence of at most 50 successful mutating
operations (`drawFromStock`, `moveCards`, `tryAutoMove`) applied to a
state, followed by as many `undo()` calls, the resulting piles, move
count and score (the fields a history snapshot carries) are deep-equal to
their values before the sequence began.  The bound comes from the
50-entry history cap; the claim as stated (any `n`) fails at `n` = 51,
see the counterexample. -/

theorem C2_move_reversibility (cfg : Settings) (s s' : GameState) (ops : List Op)
    (hlen : ops.length ≤ 50) (hrun : runOps cfg s ops = some s') :
    mkSnap (undoN ops.length s') = mkSnap s := by
  cases ops with
  | nil =>
    obtain rfl := Option.some_inj.mp hrun
    rfl
  | cons op rest =>
    have h0 : ([] : List Snap) <:+ s.history := List.nil_suffix
    have hsuf := runOps_suffix cfg (op :: rest) s s' [] hrun h0 (by simpa using hlen)
    rw [List.nil_append] at hsuf
    have htr : runTrace cfg s (op :: rest) =
        mkSnap s :: runTrace cfg (applyOp cfg s op).1 rest := rfl
    rw [htr] at hsuf
    have hrestore := undoN_restore (runTrace cfg (applyOp cfg s op).1 rest) (mkSnap s) s' hsuf
    rw [runTrace_length] at hrestore
    simpa using hrestore

set_option maxRecDepth 400000 in

/-- C2, as stated, is false: 51 successful draws followed by 51 undos do
not restore the original state (the 51st undo finds the history empty —
the cap evicted the oldest snapshot — and leaves one move un-undone). -/

theorem C2_counterexample :
    (runOps cfgStandard oneCardState (List.replicate 51 Op.draw)).isSome = true ∧
    mkSnap (undoN (List.replicate 51 Op.draw).length
        ((runOps cfgStandard oneCardState (List.replicate 51 Op.draw)).getD oneCardState)) ≠
      mkSnap oneCardState := by
  constructor
  · decide
  · decide

theorem C2_move_reversibility_witness :
    mkSnap (undoN (List.length [Op.draw, Op.draw])
        ((runOps cfgStandard oneCardState [Op.draw, Op.draw]).getD oneCardState)) =
      mkSnap oneCardState :=
  C2_move_reversibility cfgStandard oneCardState _ [Op.draw, Op.draw]
    (by decide) (by decide)

/-! ## Placement rules (C3), stock reset (C4) -/

/-- C3: the placement predicates implement exactly the spec's rules.
Foundation: a card of the wrong suit is always rejected; with the right
suit, an empty foundation accepts exactly rank 1, and a non-empty one
exactly `topCard.rank + 1`.  Tableau (index 0..6): an empty pile accepts
exactly rank 13; a non-empty pile accepts exactly a card of opposite
color and rank `topCard.rank - 1` whose top card is face-up. -/

theorem C3_placement_rules (s : GameState) (c : Card) (i : Nat) (j : Fin 7) :
    (∀ es, SUITS.get? i = some es → c.suit ≠ es →
      canPlaceOnFoundation s c i = false) ∧
    (∀ es, SUITS.get? i = some es → c.suit = es →
      s.foundations.getD i [] = [] →
      (canPlaceOnFoundation s c i = true ↔ c.rank = 1)) ∧
    (∀ es top, SUITS.get? i = some es → c.suit = es →
      (s.foundations.getD i []).getLast? = some top →
      (canPlaceOnFoundation s c i = true ↔ c.rank = top.rank + 1)) ∧
    (s.tableau.getD j.val [] = [] →
      (canPlaceOnTableau s c j.val = true ↔ c.rank = 13)) ∧
    (∀ top, (s.tableau.getD j.val []).getLast? = some top →
      (canPlaceOnTableau s c j.val = true ↔
        top.faceUp = true ∧ areOppositeColors c top = true ∧ c.rank = top.rank - 1)) := by
  refine ⟨?_, ?_, ?_, ?_, ?_⟩
  · intro es hes hne
    unfold canPlaceOnFoundation
    rw [hes]
    simp [hne]
  · intro es hes heq hemp
    unfold canPlaceOnFoundation
    rw [hes, heq, hemp]
    simp
  · intro es top hes heq hlast
    unfold canPlaceOnFoundation
    rw [hes, heq, hlast]
    simp
  · intro hemp
    unfold canPlaceOnTableau
    dsimp only
    rw [hemp]
    simp
  · intro top hlast
    unfold canPlaceOnTableau
    dsimp only
    rw [hlast]
    simp [Bool.and_assoc, and_assoc]

theorem C3_placement_rules_witness :
    canPlaceOnFoundation c3State (createCard .hearts 1) 0 = true ∧
    canPlaceOnTableau c3State { suit := .hearts, rank := 4, faceUp := true } 0 = true ∧
    canPlaceOnTableau c3State { suit := .clubs, rank := 4, faceUp := true } 0 = false :=
  ⟨((C3_placement_rules c3State (createCard .hearts 1) 0 ⟨0, by decide⟩).2.1
      Suit.hearts (by decide) (by decide) (by decide)).mpr (by decide),
   ((C3_placement_rules c3State { suit := .hearts, rank := 4, faceUp := true } 0
      ⟨0, by decide⟩).2.2.2.2 { suit := .spades, rank := 5, faceUp := true }
      (by decide)).mpr (by decide),
   by
    have h := ((C3_placement_rules c3State { suit := .clubs, rank := 4, faceUp := true } 0
      ⟨0, by decide⟩).2.2.2.2 { suit := .spades, rank := 5, faceUp := true } (by decide))
    cases hc : canPlaceOnTableau c3State { suit := .clubs, rank := 4, faceUp := true } 0 with
    | false => rfl
    | true => exact absurd ((h.mp hc).2.1) (by decide)⟩

/-- C4: `drawFromStock` on an empty stock with a non-empty waste resets:
returns `true`, the new stock is the reversed waste all face-down, the
waste empties, and under Vegas scoring the score becomes
`max 0 (score - 100)` (unchanged otherwise). -/

theorem C4_stock_reset (cfg : Settings) (s : GameState)
    (h1 : s.stock = []) (h2 : s.waste ≠ []) :
    (drawFromStock cfg s).2 = true ∧
    (drawFromStock cfg s).1.stock =
      s.waste.reverse.map (fun c => { c with faceUp := false }) ∧
    (drawFromStock cfg s).1.waste = [] ∧
    (drawFromStock cfg s).1.score =
      (if cfg.scoring = "vegas" then max 0 (s.score - 100) else s.score) := by
  have hl0 : s.stock.length = 0 := by rw [h1]; rfl
  have hw0 : ¬s.waste.length = 0 := fun he => h2 (List.length_eq_zero.mp he)
  unfold drawFromStock
  rw [if_pos hl0, if_neg hw0]
  dsimp only
  refine ⟨rfl, ?_, ?_, ?_⟩
  · split <;> rfl
  · split <;> rfl
  · split
    next hv =>
      rw [if_pos (by rwa [beq_iff_eq] at hv)]
      rfl
    next hv =>
      rw [if_neg (fun he => hv (by simp [he]))]
      rfl

theorem C4_stock_reset_witness :
    ((drawFromStock cfgVegas c4State).2 = true ∧
     (drawFromStock cfgVegas c4State).1.stock =
       c4State.waste.reverse.map (fun c => { c with faceUp := false }) ∧
     (drawFromStock cfgVegas c4State).1.waste = [] ∧
     (drawFromStock cfgVegas c4State).1.score =
       (if cfgVegas.scoring = "vegas" then max 0 (c4State.score - 100) else c4State.score)) ∧
    (drawFromStock cfgVegas c4State).1.stock =
      [{ suit := .spades, rank := 1, faceUp := false }] ∧
    (drawFromStock cfgVegas c4State).1.score = 0 :=
  ⟨C4_stock_reset cfgVegas c4State rfl (by decide), by decide, by decide⟩

/-! ## Hint priority (C6) -/

/-- C6: whenever the top waste card is legally placeable on its suit's
foundation, `getHint` returns exactly that move, whatever other moves
exist: the waste-to-foundation check is the first branch of `getHint`. -/

theorem C6_hint_priority (s : GameState) (wc : Card)
    (h1 : getTopWasteCard s = some wc)
    (h2 : canPlaceOnFoundation s wc (getFoundationIndex wc.suit) = true) :
    getHint s = some { fromCardId := some wc.id
                       fromLocation := "waste"
                       toLocation := "foundation"
                       toPileIndex := some (getFoundationIndex wc.suit) } := by
  have hw : hintWasteFoundation s =
      some { fromCardId := some wc.id
             fromLocation := "waste"
             toLocation := "foundation"
             toPileIndex := some (getFoundationIndex wc.suit) } := by
    unfold hintWasteFoundation
    rw [h1]
    dsimp only
    rw [if_pos h2]
  unfold getHint
  rw [hw]

theorem C6_hint_priority_witness :
    (hintTableauTableau c6State).isSome = true ∧
    getHint c6State = some { fromCardId := some (Suit.hearts, 1)
                             fromLocation := "waste"
                             toLocation := "foundation"
                             toPileIndex := some 0 } :=
  ⟨by decide,
   C6_hint_priority c6State { suit := .hearts, rank := 1, faceUp := true } rfl (by decide)⟩

/-! ## The LCG (C5)

Correctness of the binary64 rounding model, then the claim.  The rounding
lemmas establish: `fl64` is the identity on naturals below `2^53`, maps
`[0, 1]` into itself, and therefore the masked seed update agrees with
the exact congruential formula exactly when the intermediate sum fits in
53 bits. -/

theorem log2fuel_bounds : ∀ (fuel n : Nat), 1 ≤ n → n ≤ fuel →
    2 ^ log2fuel fuel n ≤ n ∧ n < 2 ^ (log2fuel fuel n + 1) := by
  intro fuel
  induction fuel with
  | zero => intro n h1 h2; omega
  | succ f ih =>
    intro n h1 h2
    unfold log2fuel
    by_cases h : 2 ≤ n
    · rw [if_pos h]
      have hd1 : 1 ≤ n / 2 := by omega
      have hd2 : n / 2 ≤ f := by omega
      obtain ⟨ha, hb⟩ := ih (n / 2) hd1 hd2
      rw [pow_succ] at hb
      constructor
      · rw [pow_succ]; omega
      · rw [pow_succ, pow_succ]; omega
    · rw [if_neg h]
      constructor
      · simpa using h1
      · have hn : n < 2 := by omega
        simpa using hn

theorem nlog2_bounds (n : Nat) (h : 1 ≤ n) :
    2 ^ nlog2 n ≤ n ∧ n < 2 ^ (nlog2 n + 1) :=
  log2fuel_bounds n n h (le_refl n)

theorem ipow2_natCast (k : Nat) : ipow2 (k : Int) = ((2 ^ k : Nat) : ℚ) := rfl

theorem ipow2_eq_zpow (e : Int) : ipow2 e = (2 : ℚ) ^ e := by
  cases e with
  | ofNat k =>
    show ((2 ^ k : Nat) : ℚ) = (2 : ℚ) ^ (k : Int)
    rw [zpow_natCast]
    push_cast
    rfl
  | negSucc k =>
    show 1 / ((2 ^ (k + 1) : Nat) : ℚ) = (2 : ℚ) ^ (Int.negSucc k)
    rw [zpow_negSucc, one_div]
    congr 1
    push_cast
    rfl

theorem ipow2_pos (e : Int) : 0 < ipow2 e := by
  rw [ipow2_eq_zpow]
  exact zpow_pos (by norm_num) e

theorem ipow2_zero : ipow2 0 = 1 := by
  rw [ipow2_eq_zpow, zpow_zero]

theorem ipow2_mono {a b : Int} (h : a ≤ b) : ipow2 a ≤ ipow2 b := by
  rw [ipow2_eq_zpow, ipow2_eq_zpow]
  exact zpow_le_zpow_right₀ (by norm_num) h

theorem ipow2_coe_sub (a b : Nat) :
    ipow2 ((a : Int) - b) = ((2 ^ a : Nat) : ℚ) / ((2 ^ b : Nat) : ℚ) := by
  rcases Nat.lt_or_ge a b with hab | hba
  · have h1 : (a : Int) - b = Int.negSucc (b - a - 1) := by
      rw [Int.negSucc_eq]
      omega
    rw [h1]
    show 1 / ((2 ^ (b - a - 1 + 1) : Nat) : ℚ) = _
    have h2 : b - a - 1 + 1 = b - a := by omega
    rw [h2, div_eq_div_iff (by positivity) (by positivity)]
    push_cast
    rw [one_mul, ← pow_add]
    congr 1
    omega
  · have h1 : (a : Int) - b = ((a - b : Nat) : Int) := by omega
    rw [h1, ipow2_natCast, eq_div_iff (by positivity)]
    push_cast
    rw [← pow_add]
    congr 1
    omega

theorem qlog2_bounds (q : ℚ) (hq : 0 < q) :
    ipow2 (qlog2 q) ≤ q ∧ q < ipow2 (qlog2 q + 1) := by
  have hnum : 0 < q.num := Rat.num_pos.mpr hq
  have hden : 0 < q.den := q.pos
  have hnt : 1 ≤ q.num.toNat := by omega
  have htn : ((q.num.toNat : Nat) : ℚ) = ((q.num : Int) : ℚ) := by
    exact_mod_cast congrArg (Int.cast : Int → ℚ) (Int.toNat_of_nonneg hnum.le)
  have hqd : q = (q.num.toNat : ℚ) / (q.den : ℚ) := by
    rw [htn]
    exact (Rat.num_div_den q).symm
  obtain ⟨hn1, hn2⟩ := nlog2_bounds q.num.toNat hnt
  obtain ⟨hd1, hd2⟩ := nlog2_bounds q.den hden
  set Ln := nlog2 q.num.toNat with hLn
  set Ld := nlog2 q.den with hLd
  have hupper : q < ipow2 ((Ln : Int) - Ld + 1) := by
    have h1 : (Ln : Int) - Ld + 1 = ((Ln + 1 : Nat) : Int) - (Ld : Int) := by omega
    rw [h1, ipow2_coe_sub, hqd]
    rw [div_lt_div_iff₀ (by exact_mod_cast hden) (by positivity)]
    have hnat : q.num.toNat * 2 ^ Ld < 2 ^ (Ln + 1) * q.den :=
      Nat.lt_of_lt_of_le
        ((Nat.mul_lt_mul_right (by positivity)).mpr hn2)
        (Nat.mul_le_mul (Nat.le_refl _) hd1)
    exact_mod_cast hnat
  have hlower : ipow2 ((Ln : Int) - Ld - 1) ≤ q := by
    have h1 : (Ln : Int) - Ld - 1 = ((Ln : Nat) : Int) - ((Ld + 1 : Nat) : Int) := by omega
    rw [h1, ipow2_coe_sub, hqd]
    rw [div_le_div_iff₀ (by positivity) (by exact_mod_cast hden)]
    have hnat : 2 ^ Ln * q.den ≤ q.num.toNat * 2 ^ (Ld + 1) :=
      Nat.mul_le_mul hn1 (Nat.le_of_lt hd2)
    exact_mod_cast hnat
  unfold qlog2
  by_cases hif : ipow2 ((Ln : Int) - Ld) ≤ q
  · rw [if_pos (by exact_mod_cast hif)]
    exact ⟨hif, hupper⟩
  · rw [if_neg (by exact_mod_cast hif)]
    constructor
    · exact hlower
    · have h2 : (Ln : Int) - Ld - 1 + 1 = (Ln : Int) - Ld := by omega
      rw [h2]
      exact lt_of_not_le hif

theorem rnd_intCast (z : Int) : rnd (z : ℚ) = z := by
  unfold rnd
  rw [Int.floor_intCast, sub_self]
  norm_num

theorem floor_le_rnd (m : ℚ) : Int.floor m ≤ rnd m := by
  unfold rnd
  split
  · exact le_refl _
  · split
    · omega
    · split <;> omega

theorem rnd_le_floor_add_one (m : ℚ) : rnd m ≤ Int.floor m + 1 := by
  unfold rnd
  split
  · omega
  · split
    · omega
    · split <;> omega

theorem fl64_nonneg (q : ℚ) (h : 0 ≤ q) : 0 ≤ fl64 q := by
  unfold fl64
  split
  · exact le_refl 0
  · apply div_nonneg _ (ipow2_pos _).le
    have hm : (0 : ℚ) ≤ q * ipow2 (52 - qlog2 q) :=
      mul_nonneg h (ipow2_pos _).le
    have hfl : (0 : Int) ≤ Int.floor (q * ipow2 (52 - qlog2 q)) :=
      Int.floor_nonneg.mpr hm
    have hr := floor_le_rnd (q * ipow2 (52 - qlog2 q))
    exact_mod_cast le_trans hfl hr

theorem fl64_natCast (n : Nat) (h : n < 2 ^ 53) : fl64 (n : ℚ) = (n : ℚ) := by
  rcases Nat.eq_zero_or_pos n with h0 | hpos
  · subst h0
    simp [fl64]
  · have hq : (0 : ℚ) < (n : ℚ) := by exact_mod_cast hpos
    have hne : (n : ℚ) ≠ 0 := ne_of_gt hq
    unfold fl64
    rw [if_neg hne]
    obtain ⟨hl, hu⟩ := qlog2_bounds (n : ℚ) hq
    set e := qlog2 ((n : ℚ)) with he
    have h1q : (1 : ℚ) ≤ (n : ℚ) := by exact_mod_cast hpos
    have hge : 0 ≤ e := by
      by_contra hc
      push_neg at hc
      have h2 : ipow2 (e + 1) ≤ ipow2 0 := ipow2_mono (by omega)
      rw [ipow2_zero] at h2
      linarith
    have hle : e ≤ 52 := by
      by_contra hc
      push_neg at hc
      have h2 : ipow2 ((53 : Nat) : Int) ≤ ipow2 e := ipow2_mono (by omega)
      rw [ipow2_natCast] at h2
      have h4 : ((2 ^ 53 : Nat) : ℚ) ≤ (n : ℚ) := le_trans h2 hl
      have h5 : (2 ^ 53 : Nat) ≤ n := by exact_mod_cast h4
      omega
    set t := (52 - e).toNat with ht
    have hts : (52 : Int) - e = (t : Int) := by omega
    rw [hts, ipow2_natCast]
    have hm : (n : ℚ) * ((2 ^ t : Nat) : ℚ) = (((n * 2 ^ t : Nat) : Int) : ℚ) := by
      push_cast
      ring
    rw [hm, rnd_intCast]
    rw [div_eq_iff (by positivity)]
    push_cast
    ring

theorem fl64_le_one (q : ℚ) (h0 : 0 ≤ q) (h1 : q ≤ 1) : fl64 q ≤ 1 := by
  rcases eq_or_lt_of_le h0 with hz | hq
  · rw [← hz]
    unfold fl64
    rw [if_pos rfl]
    norm_num
  · rcases eq_or_lt_of_le h1 with hone | hlt
    · rw [hone]
      have h2 : fl64 (((1 : Nat) : ℚ)) = ((1 : Nat) : ℚ) := fl64_natCast 1 (by norm_num)
      simp only [Nat.cast_one] at h2
      exact le_of_eq h2
    · have hne : q ≠ 0 := ne_of_gt hq
      unfold fl64
      rw [if_neg hne]
      obtain ⟨hl, hu⟩ := qlog2_bounds q hq
      set e := qlog2 q with he
      have hneg : e + 1 ≤ 0 := by
        by_contra hc
        push_neg at hc
        have h2 : ipow2 0 ≤ ipow2 e := ipow2_mono (by omega)
        rw [ipow2_zero] at h2
        linarith
      have hts : (52 : Int) - e = (((52 - e).toNat : Nat) : Int) := by omega
      set t := (52 - e).toNat with ht
      rw [hts, ipow2_natCast]
      have hNpos : (0 : ℚ) < ((2 ^ t : Nat) : ℚ) := by positivity
      rw [div_le_one hNpos]
      have hm : q * ((2 ^ t : Nat) : ℚ) < ((2 ^ t : Nat) : ℚ) := by
        nlinarith
      have hfl : Int.floor (q * ((2 ^ t : Nat) : ℚ)) < ((2 ^ t : Nat) : Int) := by
        rw [Int.floor_lt]
        exact_mod_cast hm
      have hr : rnd (q * ((2 ^ t : Nat) : ℚ)) ≤ ((2 ^ t : Nat) : Int) :=
        le_trans (rnd_le_floor_add_one _) (by omega)
      exact_mod_cast hr

theorem lcgNext_eq (seed : Nat) (h : seed * 1103515245 + 12345 < 2 ^ 53) :
    lcgNext seed = (seed * 1103515245 + 12345) % 2 ^ 31 := by
  unfold lcgNext
  have h1 : (seed : ℚ) * 1103515245 = ((seed * 1103515245 : Nat) : ℚ) := by
    push_cast
    ring
  rw [h1, fl64_natCast _ (by omega)]
  have h2 : ((seed * 1103515245 : Nat) : ℚ) + 12345 =
      ((seed * 1103515245 + 12345 : Nat) : ℚ) := by
    push_cast
    ring
  rw [h2, fl64_natCast _ h]
  have h3 : ((seed * 1103515245 + 12345 : Nat) : ℚ) =
      (((seed * 1103515245 + 12345 : Nat) : Int) : ℚ) := by
    push_cast
    ring
  rw [h3, Int.floor_intCast, Int.toNat_natCast]
  show (seed * 1103515245 + 12345) &&& 0x7fffffff = _
  have h4 : (0x7fffffff : Nat) = 2 ^ 31 - 1 := by norm_num
  rw [h4, Nat.and_pow_two_sub_one_eq_mod]

theorem lcgNext_le (seed : Nat) : lcgNext seed ≤ 0x7fffffff := by
  show _ &&& 0x7fffffff ≤ _
  exact Nat.and_le_right

theorem seededRandomNext_value_mem (seed : Nat) :
    0 ≤ (seededRandomNext seed).2 ∧ (seededRandomNext seed).2 ≤ 1 := by
  show 0 ≤ fl64 ((lcgNext seed : ℚ) / (0x7fffffff : ℚ)) ∧
    fl64 ((lcgNext seed : ℚ) / (0x7fffffff : ℚ)) ≤ 1
  have hle : (lcgNext seed : ℚ) ≤ (0x7fffffff : ℚ) := by
    exact_mod_cast lcgNext_le seed
  constructor
  · exact fl64_nonneg _ (by positivity)
  · exact fl64_le_one _ (by positivity) (by rw [div_le_one (by norm_num)]; exact hle)

/-- C5 (amended): `next()` computes the seed update
`(seed * 1103515245 + 12345) & 0x7fffffff` in binary64 floating point;
whenever the exact product-plus-increment is below `2^53` — so the
binary64 multiplication and addition do not round — the new seed is
`(seed * 1103515245 + 12345) mod 2^31`, the claimed congruential update
(for larger intermediate values the product rounds before the mask and
the congruential formula can fail).  The value returned is the binary64
rounding of `newSeed / (2^31 - 1)` — the divisor the source uses is
`0x7fffffff = 2^31 - 1`, not `2^31` — and it lies in the closed interval
`[0, 1]`, attaining 1 exactly when the new seed is `2^31 - 1`.
`nextInt(max)` returns the floor of the binary64 product `next() * max`
alongside the same updated seed. -/

theorem C5_lcg (seed maxv : Nat) (h : seed * 1103515245 + 12345 < 2 ^ 53) :
    (seededRandomNext seed).1 = (seed * 1103515245 + 12345) % 2 ^ 31 ∧
    (seededRandomNext seed).2 =
      fl64 (((seededRandomNext seed).1 : ℚ) / (2 ^ 31 - 1)) ∧
    0 ≤ (seededRandomNext seed).2 ∧ (seededRandomNext seed).2 ≤ 1 ∧
    (seededRandomNextInt seed maxv).2 =
      Int.floor (fl64 ((seededRandomNext seed).2 * (maxv : ℚ))) ∧
    (seededRandomNextInt seed maxv).1 = (seededRandomNext seed).1 := by
  obtain ⟨hv0, hv1⟩ := seededRandomNext_value_mem seed
  refine ⟨lcgNext_eq seed h, ?_, hv0, hv1, rfl, rfl⟩
  show fl64 ((lcgNext seed : ℚ) / (0x7fffffff : ℚ)) =
    fl64 ((lcgNext seed : ℚ) / (2 ^ 31 - 1))
  have hd : (0x7fffffff : ℚ) = 2 ^ 31 - 1 := by norm_num
  rw [hd]

/-- Witness for C5 at seed 1, `max` 52: the intermediate value fits in 53
bits, so the congruential description applies. -/

theorem C5_lcg_witness :
    1 * 1103515245 + 12345 < 2 ^ 53 ∧
    ((seededRandomNext 1).1 = (1 * 1103515245 + 12345) % 2 ^ 31 ∧
     (seededRandomNext 1).2 =
       fl64 (((seededRandomNext 1).1 : ℚ) / (2 ^ 31 - 1)) ∧
     0 ≤ (seededRandomNext 1).2 ∧ (seededRandomNext 1).2 ≤ 1 ∧
     (seededRandomNextInt 1 52).2 =
       Int.floor (fl64 ((seededRandomNext 1).2 * ((52 : Nat) : ℚ))) ∧
     (seededRandomNextInt 1 52).1 = (seededRandomNext 1).1) :=
  ⟨by decide, C5_lcg 1 52 (by decide)⟩

unseal Rat.add Rat.mul Rat.inv Rat.sub in
/-- C5 as stated is false on two counts.  (i) The congruential update is
computed in binary64 and rounds once the product leaves the 53-bit
window: from seed 262857199 — the second generator state reached from
the winnable seed 11982 — the code produces 712193280, while
`(seed * 1103515245 + 12345) mod 2^31` is 712193276.  (ii) The divisor
is `0x7fffffff = 2^31 - 1`, not `2^31`: at seed 1 the returned value
differs from `newSeed / 2^31`. -/
theorem C5_counterexample :
    lcgNext 11982 = 262857199 ∧
    lcgNext 262857199 = 712193280 ∧
    (262857199 * 1103515245 + 12345) % 2 ^ 31 = 712193276 ∧
    (seededRandomNext 1).2 ≠ ((seededRandomNext 1).1 : ℚ) / 2 ^ 31 := by
  refine ⟨by decide, by decide, by decide, by decide⟩

/-! ## No-op failure cases (C8) -/

/-- C8: `undo()` with an empty history returns `false` and leaves the
entire state (piles, history, moves, score, startTime, seed) unchanged;
`drawFromStock()` with both stock and waste empty returns `false` and
likewise changes nothing — in particular neither pushes a history
snapshot nor touches moves or score. -/

theorem C8_noop_failures (cfg : Settings) (s : GameState) :
    (s.history = [] → undo s = (s, false)) ∧
    (s.stock = [] → s.waste = [] → drawFromStock cfg s = (s, false)) := by
  constructor
  · intro h
    unfold undo
    rw [h]
    rfl
  · intro h1 h2
    unfold drawFromStock
    rw [if_pos (by rw [h1]; rfl), if_pos (by rw [h2]; rfl)]

theorem C8_noop_failures_witness :
    undo emptyState = (emptyState, false) ∧
    drawFromStock cfgStandard emptyState = (emptyState, false) :=
  ⟨(C8_noop_failures cfgStandard emptyState).1 rfl,
   (C8_noop_failures cfgStandard emptyState).2 rfl rfl⟩

theorem removeFromSource_total {t : GameState} {src : LocDesc}
    (h1 : src.location = "foundation" → src.pileIndex < t.foundations.length)
    (h2 : src.location = "tableau" → src.pileIndex < t.tableau.length) :
    ∃ r, removeFromSource t src = some r ∧
      r.1.foundations.length = t.foundations.length ∧
      r.1.tableau.length = t.tableau.length := by
  unfold removeFromSource
  split
  · exact ⟨_, rfl, rfl, rfl⟩
  next htag =>
    split
    next htag2 =>
      have hlt := h1 (beq_iff_eq.mp htag2)
      rw [List.get?_eq_get hlt]
      exact ⟨_, rfl, by simp, rfl⟩
    next =>
      split
      next htag3 =>
        have hlt := h2 (beq_iff_eq.mp htag3)
        rw [List.get?_eq_get hlt]
        dsimp only
        split
        · split
          · exact ⟨_, rfl, rfl, by simp⟩
          · exact ⟨_, rfl, rfl, by simp⟩
        · exact ⟨_, rfl, rfl, by simp⟩
      next => exact ⟨_, rfl, rfl, rfl⟩

theorem addToDest_total {cfg : Settings} {t : GameState} {cards : List Card}
    {fl : Bool} {dst : LocDesc}
    (h1 : dst.location = "foundation" → dst.pileIndex < t.foundations.length)
    (h2 : dst.location = "tableau" → dst.pileIndex < t.tableau.length) :
    ∃ t2, addToDest cfg t cards fl dst = some t2 := by
  unfold addToDest
  split
  next htag =>
    have hlt := h1 (beq_iff_eq.mp htag)
    rw [List.get?_eq_get hlt]
    dsimp only
    split
    · exact ⟨_, rfl⟩
    · split
      · exact ⟨_, rfl⟩
      · exact ⟨_, rfl⟩
  next =>
    split
    next htag2 =>
      have hlt := h2 (beq_iff_eq.mp htag2)
      rw [List.get?_eq_get hlt]
      dsimp only
      split
      · exact ⟨_, rfl⟩
      · exact ⟨_, rfl⟩
    next => exact ⟨_, rfl⟩

/-- C9 (amended): `moveCards` returns `true`, pushes one history
snapshot and increments the move count for every pair of descriptors as
long as each recognized pile tag carries an in-range pile index — this
includes unrecognized location tags, in which case no pile changes (the
cards that "move" are none).  The claim's "every pair of location
descriptors" is amended by the in-range hypotheses: a recognized tag with
an out-of-range index makes the source throw a `TypeError` instead of
returning `true` (see the counterexample). -/

theorem C9_moveCards_total (cfg : Settings) (s : GameState) (src dst : LocDesc)
    (h1 : inRangeDesc s src) (h2 : inRangeDesc s dst) :
    ∃ s', moveCards cfg s src dst = some s' ∧
      s'.moves = s.moves + 1 ∧
      s'.history = pushHistory s.history (mkSnap s) ∧
      (src.location ≠ "waste" → src.location ≠ "foundation" → src.location ≠ "tableau" →
        dst.location ≠ "foundation" → dst.location ≠ "tableau" →
        s'.stock = s.stock ∧ s'.waste = s.waste ∧ s'.foundations = s.foundations ∧
          s'.tableau = s.tableau ∧ s'.score = s.score) := by
  obtain ⟨⟨t1, cards, fl⟩, hrem, hlf, hlt⟩ :=
    @removeFromSource_total (saveState s) src h1.1 h1.2
  obtain ⟨t2, hadd⟩ := @addToDest_total cfg t1 cards fl dst
    (fun hd => hlf ▸ h2.1 hd) (fun hd => hlt ▸ h2.2 hd)
  obtain ⟨rk, rh, rm, rs, rst, rsd⟩ := removeFromSource_spec hrem
  obtain ⟨ah, am, ast, asd, akeys, aid⟩ := addToDest_spec hadd
  refine ⟨{ t2 with moves := t2.moves + 1 }, ?_, ?_, ?_, ?_⟩
  · unfold moveCards
    rw [hrem]
    simp only [Option.some_bind]
    rw [hadd]
    rfl
  · show t2.moves + 1 = s.moves + 1
    rw [am, rm]
    rfl
  · show t2.history = pushHistory s.history (mkSnap s)
    rw [ah, rh]
    rfl
  · intro hw hf ht hdf hdt
    have hteq : t2 = t1 := aid (by
      intro hor
      rcases hor with h | h
      · exact hdf h
      · exact hdt h)
    have ht1 : t1 = saveState s := by
      unfold removeFromSource at hrem
      rw [if_neg (by simp [hw]), if_neg (by simp [hf]), if_neg (by simp [ht])] at hrem
      simp only [Option.some.injEq, Prod.mk.injEq] at hrem
      exact hrem.1.symm
    subst hteq
    subst ht1
    exact ⟨rfl, rfl, rfl, rfl, rfl⟩

/-- C9 as stated is false: with a recognized destination tag but an
out-of-range pile index, the source's `moveCards` throws (modelled
`none`) instead of returning `true`. -/

theorem C9_counterexample :
    moveCards cfgStandard emptyState { location := "waste" }
      { location := "foundation", pileIndex := 9 } = none := by
  decide

theorem C9_moveCards_total_witness :
    (moveCards cfgStandard emptyState { location := "nowhere" }
      { location := "elsewhere" }).isSome = true := by
  obtain ⟨s', hm, -, -, -⟩ := C9_moveCards_total cfgStandard emptyState
    { location := "nowhere" } { location := "elsewhere" }
    (by exact ⟨by decide, by decide⟩) (by exact ⟨by decide, by decide⟩)
  rw [hm]
  rfl

/-! ## Frame: startTime and seed persist (C10) -/

/-- C10: every operation other than `newGame` leaves `startTime` and
`seed` untouched: `saveState` snapshots only the six pile/counter fields
(`Snap` has exactly those fields) and `undo` restores only those six, so
`drawFromStock`, `moveCards`, `tryAutoMove` and `undo` all preserve the
elapsed-time origin and the game's seed. -/

theorem C10_frame (cfg : Settings) (s : GameState) (src dst : LocDesc)
    (cid : Suit × Int) :
    (drawFromStock cfg s).1.startTime = s.startTime ∧
    (drawFromStock cfg s).1.seed = s.seed ∧
    (∀ s', moveCards cfg s src dst = some s' →
      s'.startTime = s.startTime ∧ s'.seed = s.seed) ∧
    (tryAutoMove cfg s cid).1.startTime = s.startTime ∧
    (tryAutoMove cfg s cid).1.seed = s.seed ∧
    (undo s).1.startTime = s.startTime ∧
    (undo s).1.seed = s.seed := by
  have hauto : (tryAutoMove cfg s cid).1.startTime = s.startTime ∧
      (tryAutoMove cfg s cid).1.seed = s.seed := by
    rcases tryAutoMove_cases cfg s cid with hc | ⟨src', dst', t, hm, hc⟩
    · rw [hc]; exact ⟨rfl, rfl⟩
    · rw [hc]
      exact ⟨(moveCards_spec hm).2.2.1, (moveCards_spec hm).2.2.2.1⟩
  refine ⟨?_, ?_, fun s' hm => ⟨(moveCards_spec hm).2.2.1, (moveCards_spec hm).2.2.2.1⟩,
    hauto.1, hauto.2, ?_, ?_⟩
  · unfold drawFromStock
    repeat' split
    all_goals rfl
  · unfold drawFromStock
    repeat' split
    all_goals rfl
  · unfold undo
    split <;> rfl
  · unfold undo
    split <;> rfl

theorem C10_frame_witness :
    ((moveCards cfgStandard c4State { location := "waste" }
        { location := "foundation", pileIndex := 3 }).getD c4State).startTime =
      c4State.startTime ∧
    ((moveCards cfgStandard c4State { location := "waste" }
        { location := "foundation", pileIndex := 3 }).getD c4State).seed = c4State.seed ∧
    (tryAutoMove cfgStandard c4State (Suit.spades, 1)).1.startTime = c4State.startTime ∧
    (undo c4State).1.seed = c4State.seed :=
  ⟨((C10_frame cfgStandard c4State { location := "waste" }
      { location := "foundation", pileIndex := 3 } (Suit.spades, 1)).2.2.1 _ (by decide)).1,
   ((C10_frame cfgStandard c4State { location := "waste" }
      { location := "foundation", pileIndex := 3 } (Suit.spades, 1)).2.2.1 _ (by decide)).2,
   (C10_frame cfgStandard c4State { location := "waste" }
      { location := "foundation", pileIndex := 3 } (Suit.spades, 1)).2.2.2.1,
   (C10_frame cfgStandard c4State { location := "waste" }
      { location := "foundation", pileIndex := 3 } (Suit.spades, 1)).2.2.2.2.2.2⟩

theorem findSome?_flatMap {α β γ : Type} (l : List α) (g : α → List β)
    (f : β → Option γ) :
    (l.flatMap g).findSome? f = l.findSome? fun a => (g a).findSome? f := by
  induction l with
  | nil => rfl
  | cons a rest ih =>
    rw [List.flatMap_cons, List.findSome?_append, List.findSome?_cons]
    cases h : (g a).findSome? f <;> simp [h, ih]

theorem findSome?_none {α β : Type} (l : List α) :
    l.findSome? (fun _ => (none : Option β)) = none := by
  induction l with
  | nil => rfl
  | cons a rest ih => rw [List.findSome?_cons]; exact ih

theorem hintTableauTableau_eq_scan (s : GameState) :
    hintTableauTableau s = (tableauScanTriples s).findSome? (tableauHintAt s) := by
  unfold hintTableauTableau tableauScanTriples
  rw [findSome?_flatMap]
  congr 1
  funext i
  dsimp only
  rw [findSome?_flatMap]
  congr 1
  funext j
  rw [List.findSome?_map]
  cases hc : (s.tableau.getD i []).get? j with
  | none =>
    have hfn : (tableauHintAt s ∘ fun k => (i, j, k)) =
        fun _ => (none : Option Hint) := by
      funext k
      show tableauHintAt s (i, j, k) = none
      unfold tableauHintAt
      dsimp only
      rw [hc]
    rw [hfn, findSome?_none]
  | some card =>
    by_cases hfu : card.faceUp = true
    · dsimp only
      rw [if_neg (show ¬(!card.faceUp) = true by rw [hfu]; simp)]
      congr 1
      funext k
      show _ = tableauHintAt s (i, j, k)
      unfold tableauHintAt
      dsimp only
      rw [hc]
      dsimp only
      rw [if_neg (show ¬(!card.faceUp) = true by rw [hfu]; simp)]
    · have hfd : card.faceUp = false := by
        revert hfu; cases card.faceUp <;> simp
      dsimp only
      rw [if_pos (show (!card.faceUp) = true by rw [hfd]; rfl)]
      have hfn : (tableauHintAt s ∘ fun k => (i, j, k)) =
          fun _ => (none : Option Hint) := by
        funext k
        show tableauHintAt s (i, j, k) = none
        unfold tableauHintAt
        dsimp only
        rw [hc]
        dsimp only
        rw [if_pos (show (!card.faceUp) = true by rw [hfd]; rfl)]
      rw [hfn, findSome?_none]

/-- C7 (amended): `getHint`'s tableau-to-tableau stage is the first-match
scan over `(pile i, position j, destination k)` in lexicographic order
(piles 0..6; positions from the buried index 0 upward among face-up
cards; destinations 0..6 skipping the source), except that a King at
position 0 of its source pile — regardless of the pile's size, not only
when the King is alone in a single-card pile — moving to an empty pile
is skipped, and only that case is skipped; when the earlier waste- and
foundation-hint stages yield nothing, `getHint` returns that scan's
result. -/

theorem C7_tableau_scan (s : GameState) :
    hintTableauTableau s = (tableauScanTriples s).findSome? (tableauHintAt s) ∧
    (hintWasteFoundation s = none → hintTableauFoundation s = none →
      hintWasteTableau s = none →
      ∀ hh, (tableauScanTriples s).findSome? (tableauHintAt s) = some hh →
        getHint s = some hh) := by
  refine ⟨hintTableauTableau_eq_scan s, ?_⟩
  intro h1 h2 h3 hh hfind
  rw [← hintTableauTableau_eq_scan s] at hfind
  unfold getHint
  rw [h1]
  dsimp only
  rw [h2]
  dsimp only
  rw [h3]
  dsimp only
  rw [hfind]

/-- C7 as stated is false: in `c7State` the King at position 0 of the
two-card pile 0 has the empty pile 1 as a legal destination and no
earlier-priority hint exists, so by the claim (which only skips a LONE
King in a SINGLE-card pile) the scan ought to return that move — but the
source skips every King at position 0 and, nothing else being available,
`getHint` returns no move hint at all. -/

theorem C7_counterexample :
    canPlaceOnTableau c7State { suit := .spades, rank := 13, faceUp := true } 1 = true ∧
    (c7State.tableau.getD 0 []).get? 0 =
      some { suit := .spades, rank := 13, faceUp := true } ∧
    (c7State.tableau.getD 0 []).length = 2 ∧
    hintWasteFoundation c7State = none ∧
    hintTableauFoundation c7State = none ∧
    hintWasteTableau c7State = none ∧
    getHint c7State = none := by
  decide

theorem C7_tableau_scan_witness :
    getHint c7WitnessState =
      some { fromCardId := some (Suit.hearts, 12)
             fromLocation := "tableau"
             fromPileIndex := some 0
             fromIndex := some 1
             toLocation := "tableau"
             toPileIndex := some 1
             exposesCard := some true } :=
  (C7_tableau_scan c7WitnessState).2 (by decide) (by decide) (by decide)
    { fromCardId := some (Suit.hearts, 12)
      fromLocation := "tableau"
      fromPileIndex := some 0
      fromIndex := some 1
      toLocation := "tableau"
      toPileIndex := some 1
      exposesCard := some true } (by decide)

end Solitaire
